import Mathlib

/-!
# envs: populating struct fields from environment variables

A shallow embedding of `envs.go` (package `envs`) and of the standard-library
routines it calls (`strings.Split`, `strings.Trim`, `strconv.ParseBool`,
`strconv.ParseInt`, the UTF-8 decoding done by `range` over a string, and the
`reflect` operations used by `parse`).

Conventions:
* a Go `string` is its sequence of bytes, `List Nat` (a byte is a number below 256);
* a Go `map[string]string` is an association list read through `List.lookup`,
  with assignment `m[k] = v` putting the new pair in front (so it shadows older ones);
* a run-time panic is the `Except.error` result of the operation that panics;
* the process environment is the function `os.LookupEnv`;
* `int` is 64 bits wide (as on all 64-bit Go targets);
* the lines written to the `log` sink are not part of the model.
-/

namespace Envs

/-- A Go string: its bytes. -/
abbrev GoString := List Nat

/-- The code point `utf8.RuneError` (U+FFFD). -/
def RuneError : Nat := 0xFFFD

/-- The function `utf8.EncodeRune`: the UTF-8 bytes of one rune; surrogates and values above
U+10FFFF are written as `RuneError`. -/
def encodeRune (r : Nat) : GoString :=
  if r < 0x80 then [r]
  else if r < 0x800 then [0xC0 + r / 64, 0x80 + r % 64]
  else if 0x10FFFF < r ∨ (0xD800 ≤ r ∧ r ≤ 0xDFFF) then [0xEF, 0xBF, 0xBD]
  else if r < 0x10000 then [0xE0 + r / 4096, 0x80 + r / 64 % 64, 0x80 + r % 64]
  else [0xF0 + r / 262144, 0x80 + r / 4096 % 64, 0x80 + r / 64 % 64, 0x80 + r % 64]

/-- The conversion `string(rs)` of a rune slice. -/
def encodeRunes : List Nat → GoString
  | [] => []
  | r :: rs => encodeRune r ++ encodeRunes rs

/-- The bytes of a text literal (its UTF-8 encoding). -/
def goStr (s : String) : GoString :=
  encodeRunes (s.toList.map Char.toNat)

/-- Continuation byte test (`locb ≤ b ≤ hicb`). -/
def isCont (b : Nat) : Bool := 0x80 ≤ b && b ≤ 0xBF

/-- The table `acceptRanges`, lower bound: the least second byte allowed after the leading
byte `b0` of a multi-byte encoding. -/
def acceptLo (b0 : Nat) : Nat :=
  if b0 = 0xE0 then 0xA0 else if b0 = 0xF0 then 0x90 else 0x80

/-- The table `acceptRanges`, upper bound. -/
def acceptHi (b0 : Nat) : Nat :=
  if b0 = 0xED then 0x9F else if b0 = 0xF4 then 0x8F else 0xBF

/-- The function `utf8.DecodeRuneInString`: the first rune of a string and its width in bytes;
an invalid or truncated encoding gives `(RuneError, 1)`, the empty string `(RuneError, 0)`.
Leading bytes `C2..DF` start two bytes, `E0..EF` three, `F0..F4` four. -/
def decodeRune : GoString → Nat × Nat
  | [] => (RuneError, 0)
  | b0 :: rest =>
    if b0 < 0x80 then (b0, 1)
    else if b0 < 0xC2 ∨ 0xF5 ≤ b0 then (RuneError, 1)
    else
      match rest with
      | [] => (RuneError, 1)
      | b1 :: rest1 =>
        if b1 < acceptLo b0 ∨ acceptHi b0 < b1 then (RuneError, 1)
        else if b0 < 0xE0 then (b0 % 32 * 64 + b1 % 64, 2)
        else
          match rest1 with
          | [] => (RuneError, 1)
          | b2 :: rest2 =>
            if isCont b2 = false then (RuneError, 1)
            else if b0 < 0xF0 then (b0 % 16 * 4096 + b1 % 64 * 64 + b2 % 64, 3)
            else
              match rest2 with
              | [] => (RuneError, 1)
              | b3 :: _ =>
                if isCont b3 = false then (RuneError, 1)
                else (b0 % 8 * 262144 + b1 % 64 * 4096 + b2 % 64 * 64 + b3 % 64, 4)

/-- The pairs `(idx, c)` produced by `for idx, c = range val`, for the part of the string that
starts at byte offset `off`; `skip` counts the bytes still belonging to the rune decoded last. -/
def rangeFrom : Nat → Nat → GoString → List (Nat × Nat)
  | _, _, [] => []
  | 0, off, b :: rest => (off, (decodeRune (b :: rest)).1) ::
      rangeFrom ((decodeRune (b :: rest)).2 - 1) (off + 1) rest
  | k + 1, off, _ :: rest => rangeFrom k (off + 1) rest

/-- The iteration `for idx, c = range val`. -/
def rangeString (val : GoString) : List (Nat × Nat) := rangeFrom 0 0 val

/-- The scan of `utf8.ValidString`: no decoding step meets an invalid or truncated encoding;
`skip` counts the bytes still belonging to the rune decoded last. -/
def validFrom : Nat → GoString → Bool
  | _, [] => true
  | 0, b :: rest => decide (decodeRune (b :: rest) ≠ (RuneError, 1)) &&
      validFrom ((decodeRune (b :: rest)).2 - 1) rest
  | k + 1, _ :: rest => validFrom k rest

/-- The function `utf8.ValidString`. -/
def ValidString (s : GoString) : Bool := validFrom 0 s

/-- The conversion `string([]rune(s))`: invalid bytes become U+FFFD. -/
def toValidUTF8 (s : GoString) : GoString := encodeRunes ((rangeString s).map Prod.snd)

/-- The loop of `getTag`, over the remaining iterations, with the current `idx` and `tag`. -/
def getTagLoop : List (Nat × Nat) → Nat → List Nat → List Nat × Nat
  | [], idx, tag => (tag, idx)
  | (i, c) :: rest, _, tag =>
    if c = 58 then (tag, i) else getTagLoop rest i (tag ++ [c])

/-- The function `getTag`: the runes before the first colon, and the byte index after it. -/
def getTag (val : GoString) : GoString × Nat :=
  (encodeRunes (getTagLoop (rangeString val) 0 []).1, (getTagLoop (rangeString val) 0 []).2 + 1)

/-- The call `strings.Split(s, sep)` for a one-byte separator. -/
def stringsSplit (sep : Nat) : GoString → List GoString
  | [] => [[]]
  | b :: rest =>
    if b = sep then [] :: stringsSplit sep rest
    else match stringsSplit sep rest with
      | [] => [[b]]
      | t :: ts => (b :: t) :: ts

/-- Removal of the leading bytes equal to `c`. -/
def trimLeft (c : Nat) : GoString → GoString
  | [] => []
  | b :: rest => if b = c then trimLeft c rest else b :: rest

/-- The call `strings.Trim(s, cutset)` for a cutset of one ASCII byte. -/
def stringsTrim (c : Nat) (s : GoString) : GoString :=
  (trimLeft c (trimLeft c s).reverse).reverse

/-- A Go map from strings to strings. -/
abbrev GoMap := List (GoString × GoString)

/-- The run-time panics of the program. -/
inductive Panic where
  /-- Slice bounds out of range `[lo:len]`. -/
  | sliceBounds (lo len : Nat)
  /-- Call of `reflect.Value.Elem` on a value that is neither pointer nor interface. -/
  | elemOnNonPointer
  deriving DecidableEq, Repr

/-- The loop of `parseParams` over the tokens, with the map built so far. -/
def parseParamsLoop : List GoString → GoMap → Except Panic GoMap
  | [], m => .ok m
  | param :: rest, m =>
    if (getTag param).2 ≤ param.length then
      parseParamsLoop rest (((getTag param).1, param.drop (getTag param).2) :: m)
    else .error (.sliceBounds (getTag param).2 param.length)

/-- The function `parseParams`. -/
def parseParams (tag : GoString) : Except Panic GoMap :=
  parseParamsLoop (stringsSplit 32 tag) []

/-- The errors of package `strconv`. -/
inductive NumError where
  | ErrSyntax
  | ErrRange
  deriving DecidableEq, Repr

/-- The call `strconv.ParseBool(str)`. -/
def ParseBool (str : GoString) : Except NumError Bool :=
  if str = goStr "1" ∨ str = goStr "t" ∨ str = goStr "T" ∨ str = goStr "TRUE"
      ∨ str = goStr "true" ∨ str = goStr "True" then .ok true
  else if str = goStr "0" ∨ str = goStr "f" ∨ str = goStr "F" ∨ str = goStr "FALSE"
      ∨ str = goStr "false" ∨ str = goStr "False" then .ok false
  else .error .ErrSyntax

/-- The largest `uint64`. -/
def maxUint64 : Nat := 18446744073709551615

/-- The digit loop of `strconv.ParseUint(s, 10, 64)`, with the number `n` read so far. -/
def parseUintLoop : GoString → Nat → Except NumError Nat
  | [], n => .ok n
  | c :: rest, n =>
    if 48 ≤ c ∧ c ≤ 57 then
      if maxUint64 / 10 + 1 ≤ n then .error .ErrRange
      else if maxUint64 < n * 10 + (c - 48) then .error .ErrRange
      else parseUintLoop rest (n * 10 + (c - 48))
    else .error .ErrSyntax

/-- The call `strconv.ParseUint(s, 10, 64)`. -/
def ParseUint (s : GoString) : Except NumError Nat :=
  if s = [] then .error .ErrSyntax else parseUintLoop s 0

/-- The call `strconv.ParseInt(s, 10, 64)`. -/
def ParseInt (s : GoString) : Except NumError Int :=
  match s with
  | [] => .error .ErrSyntax
  | c :: rest =>
    match ParseUint (if c = 43 ∨ c = 45 then rest else c :: rest) with
    | .error .ErrSyntax => .error .ErrSyntax
    | .error .ErrRange => .error .ErrRange
    | .ok un =>
      if c ≠ 45 ∧ 2 ^ 63 ≤ un then .error .ErrRange
      else if c = 45 ∧ 2 ^ 63 < un then .error .ErrRange
      else .ok (if c = 45 then - (un : Int) else (un : Int))

/-- The process environment, as seen through `os.LookupEnv`. -/
abbrev Env := GoString → Option GoString

/-- The function `envString`. -/
def envString (e : Env) (key fallback : GoString) : GoString :=
  match e key with
  | some value => value
  | none => fallback

/-- The function `envBool`. -/
def envBool (e : Env) (key : GoString) (fallback : Bool) : Bool :=
  match e key with
  | none => fallback
  | some value =>
    match ParseBool value with
    | .error _ => fallback
    | .ok boolVal => boolVal

/-- The function `envInt`. -/
def envInt (e : Env) (key : GoString) (fallback : Int) : Int :=
  match e key with
  | none => fallback
  | some value =>
    match ParseInt value with
    | .error _ => fallback
    | .ok intVal => intVal

/-- The kinds of `reflect.Kind`. -/
inductive Kind where
  | Invalid | Bool | Int | Int8 | Int16 | Int32 | Int64
  | Uint | Uint8 | Uint16 | Uint32 | Uint64 | Uintptr
  | Float32 | Float64 | Complex64 | Complex128
  | Array | Chan | Func | Interface | Map | Pointer | Slice | String | Struct | UnsafePointer
  deriving DecidableEq, Repr

/-- The value held by a struct field: the three kinds the program writes carry their content,
every other field carries its kind and an uninterpreted content. -/
inductive FieldVal where
  | str (s : GoString)
  | bool (b : Bool)
  | int (n : Int)
  | other (k : Kind) (content : Nat)
  deriving DecidableEq, Repr

/-- The method `Kind()` of a field value. -/
def FieldVal.Kind : FieldVal → Kind
  | .str _ => .String
  | .bool _ => .Bool
  | .int _ => .Int
  | .other k _ => k

/-- A struct field: its name, its tag, whether it is exported, and its current value. -/
structure Field where
  Name : GoString
  Tag : GoString
  exported : Bool
  val : FieldVal
  deriving DecidableEq, Repr

/-- The kinds that are neither `Invalid`, `Interface`, `Pointer` nor `Struct`. -/
inductive BasicKind where
  | Bool | Int | Int8 | Int16 | Int32 | Int64
  | Uint | Uint8 | Uint16 | Uint32 | Uint64 | Uintptr
  | Float32 | Float64 | Complex64 | Complex128
  | Array | Chan | Func | Map | Slice | String | UnsafePointer
  deriving DecidableEq, Repr

/-- The `reflect.Kind` of a basic kind. -/
def BasicKind.toKind : BasicKind → Kind
  | .Bool => .Bool | .Int => .Int | .Int8 => .Int8 | .Int16 => .Int16 | .Int32 => .Int32
  | .Int64 => .Int64 | .Uint => .Uint | .Uint8 => .Uint8 | .Uint16 => .Uint16
  | .Uint32 => .Uint32 | .Uint64 => .Uint64 | .Uintptr => .Uintptr | .Float32 => .Float32
  | .Float64 => .Float64 | .Complex64 => .Complex64 | .Complex128 => .Complex128
  | .Array => .Array | .Chan => .Chan | .Func => .Func | .Map => .Map | .Slice => .Slice
  | .String => .String | .UnsafePointer => .UnsafePointer

/-- A `reflect.Value`, as far as `parse` looks into it. `reflect.ValueOf(nil)` is `invalid`;
a value of interface kind is only met behind a pointer. -/
inductive Value where
  | invalid
  | basic (k : BasicKind)
  | struct (fields : List Field)
  | nilPointer
  | pointerTo (target : Value)
  | nilInterface
  | interfaceOf (dynamic : Value)
  deriving DecidableEq, Repr

/-- The method `Kind()`. -/
def Value.Kind : Value → Kind
  | .invalid => .Invalid
  | .basic k => k.toKind
  | .struct _ => .Struct
  | .nilPointer => .Pointer
  | .pointerTo _ => .Pointer
  | .nilInterface => .Interface
  | .interfaceOf _ => .Interface

/-- The method `Elem()`: the value a pointer points to (addressable) or an interface contains
(not addressable); it panics on every other kind. -/
def Value.Elem : Value → Except Panic (Value × Bool)
  | .pointerTo v => .ok (v, true)
  | .nilPointer => .ok (.invalid, false)
  | .interfaceOf v => .ok (v, false)
  | .nilInterface => .ok (.invalid, false)
  | _ => .error .elemOnNonPointer

/-- The fields of a struct value (`NumField()` and `Field(i)`). -/
def Value.fields : Value → List Field
  | .struct fs => fs
  | _ => []

/-- The input after the struct it points to has been given the fields `fs`. -/
def Value.store (fs : List Field) : Value → Value
  | .pointerTo (.struct _) => .pointerTo (.struct fs)
  | .interfaceOf (.struct _) => .interfaceOf (.struct fs)
  | v => v

/-- The conversion `int(x)` of an `int64` done by `SetInt` on a field of kind `Int`. -/
def toInt (x : Int) : Int := (x + 2 ^ 63) % 2 ^ 64 - 2 ^ 63

/-- The keyword `envKw`. -/
def envKw : GoString := goStr "env"

/-- The keyword `fallbackKw`. -/
def fallbackKw : GoString := goStr "fallback"

/-- The index expression `m[k]` of a map: the zero value when the key is absent. -/
def GoMap.index (m : GoMap) (k : GoString) : GoString := (m.lookup k).getD []

/-- The type switch of `parse` on one field, once `env` and `fallback` are known. -/
def setField (e : Env) (env fallback : GoString) (f : Field) : Field :=
  if f.val.Kind = Kind.String then
    { f with val := .str (envString e env fallback) }
  else if f.val.Kind = Kind.Bool then
    { f with val := .bool (envBool e env
        (match ParseBool fallback with
          | .error _ => false
          | .ok fallbackBool => fallbackBool)) }
  else if f.val.Kind = Kind.Int then
    { f with val := .int (toInt (envInt e env
        (match ParseInt fallback with
          | .error _ => -1
          | .ok fallbackInt => fallbackInt))) }
  else f

/-- One iteration of the loop of `parse`, on a field of a struct whose addressability is
`addr`: the field afterwards, or the panic that ends the call. -/
def parseField (e : Env) (addr : Bool) (f : Field) : Except Panic Field :=
  if !addr || !(addr && f.exported) then .ok f
  else if f.Tag = [] then .ok f
  else
    match parseParams f.Tag with
    | .error p => .error p
    | .ok m =>
      match m.lookup envKw with
      | none => .ok f
      | some env =>
        .ok (setField e (stringsTrim 34 env) (stringsTrim 34 (m.index fallbackKw)) f)

/-- The result of a call: it returned an error value (`none` for `nil`), or it panicked. -/
inductive Outcome where
  | returned (err : Option GoString)
  | panicked (p : Panic)
  deriving DecidableEq, Repr

/-- The loop of `parse` over the fields, in order; the fields written before a panic keep
their new values. -/
def parseFields (e : Env) (addr : Bool) : List Field → Outcome × List Field
  | [] => (.returned none, [])
  | f :: rest =>
    match parseField e addr f with
    | .error p => (.panicked p, f :: rest)
    | .ok g => ((parseFields e addr rest).1, g :: (parseFields e addr rest).2)

/-- The error text of `parse`. -/
def errNotStruct : GoString := goStr "value must be a struct"

/-- The function `parse` on `reflect.ValueOf(value)`: how the call ends, and the input
afterwards (the struct behind the pointer is changed in place). -/
def parse (e : Env) (value : Value) : Outcome × Value :=
  match value.Elem with
  | .error p => (.panicked p, value)
  | .ok (v, addr) =>
    if v.Kind ≠ Kind.Struct then (.returned (some errNotStruct), value)
    else ((parseFields e addr v.fields).1, value.store (parseFields e addr v.fields).2)

/-- The exported function `Parse`. -/
def Parse (e : Env) (value : Value) : Outcome × Value := parse e value

/-- The digit loop of `strconv.FormatUint(n, 10)`: the digits of `n` are put in front of
`acc`, least significant first; `fuel` bounds the number of digits. -/
def natTextAux : Nat → Nat → GoString → GoString
  | 0, _, acc => acc
  | fuel + 1, n, acc =>
    if n < 10 then (n + 48) :: acc else natTextAux fuel (n / 10) ((n % 10 + 48) :: acc)

/-- The decimal digits of a natural number, most significant first (`strconv.FormatUint`). -/
def natText (n : Nat) : GoString := natTextAux (n + 1) n []

/-- The base-10 text of an integer (`strconv.FormatInt(z, 10)`). -/
def intText (z : Int) : GoString :=
  if z < 0 then 45 :: natText z.natAbs else natText z.natAbs

/-- One token `keyword:value` of a tag. -/
def token (kv : GoString × GoString) : GoString := kv.1 ++ 58 :: kv.2

/-- Tokens joined by single spaces. -/
def joinSpace : List GoString → GoString
  | [] => []
  | [t] => t
  | t :: ts => t ++ 32 :: joinSpace ts

/-- The tag `env:"N"`. -/
def envTag (N : GoString) : GoString := goStr "env:\"" ++ N ++ goStr "\""

/-- The tag `env:"N" fallback:"F"`. -/
def envFallbackTag (N F : GoString) : GoString :=
  goStr "env:\"" ++ N ++ goStr "\" fallback:\"" ++ F ++ goStr "\""

/-- The boolean fallback of `parse` (`fallbackBool`): what the fallback text parses to, `false`
when `ParseBool` rejects it. -/
def effectiveBool (F : GoString) : Bool :=
  match ParseBool F with
  | .error _ => false
  | .ok b => b

/-- The variable name `parse` resolves a field from: the `env` entry of the tokenized tag,
with the double quotes at both ends removed; `none` when the tokenizer panics or the tag has
no `env` entry. -/
def envNameOf (tag : GoString) : Option GoString :=
  match parseParams tag with
  | .error _ => none
  | .ok m => (m.lookup envKw).map (stringsTrim 34)

/-- The empty environment. -/
def emptyEnv : Env := fun _ => none

/-- An environment in which only `X` is bound, to the text `42`. -/
def envX42 : Env := fun k => if k = goStr "X" then some (goStr "42") else none

/-- An environment in which only `X` is bound, to the text `tRuE`. -/
def envXMixedCase : Env := fun k => if k = goStr "X" then some (goStr "tRuE") else none

/-- An environment in which `X` is bound to `42` and `HOME` to `/root`. -/
def envX42Home : Env := fun k =>
  if k = goStr "X" then some (goStr "42")
  else if k = goStr "HOME" then some (goStr "/root") else none

/-- The map entry a token contributes in `parseParams`: `first` and `second`. -/
def tokenEntry (param : GoString) : GoString × GoString :=
  ((getTag param).1, param.drop (getTag param).2)

/-- An environment in which only `A` is bound, to the text `zzz`. -/
def envAzzz : Env := fun k => if k = goStr "A" then some (goStr "zzz") else none

/-- An exported field named by `name`, with the tag `tag` and the value `v`. -/
def mkField (name tag : String) (v : FieldVal) : Field :=
  { Name := goStr name, Tag := goStr tag, exported := true, val := v }

/-- The value of field `i` of the struct behind a pointer. -/
def Value.fieldVal (v : Value) (i : Nat) : Option FieldVal :=
  match v with
  | .pointerTo (.struct fs) => fs[i]?.map Field.val
  | _ => none

/-! ## The tokenizer -/

theorem rangeFrom_skip (s : GoString) : ∀ (k off : Nat),
    rangeFrom k off s = rangeFrom 0 (off + k) (s.drop k) := by
  induction s with
  | nil => intro k off; simp [rangeFrom]
  | cons b rest ih =>
    intro k off
    cases k with
    | zero => simp
    | succ k =>
      rw [rangeFrom, ih k (off + 1)]
      simp only [List.drop_succ_cons]
      congr 1
      omega

theorem acceptLo_spec (b : Nat) :
    0x80 ≤ acceptLo b ∧ (b = 0xE0 → acceptLo b = 0xA0) ∧ (b = 0xF0 → acceptLo b = 0x90) := by
  unfold acceptLo; split_ifs <;> omega

theorem acceptHi_spec (b : Nat) :
    acceptHi b ≤ 0xBF ∧ (b = 0xED → acceptHi b = 0x9F) ∧ (b = 0xF4 → acceptHi b = 0x8F) := by
  unfold acceptHi; split_ifs <;> omega

theorem isCont_iff (b : Nat) : isCont b = false ↔ (b < 0x80 ∨ 0xBF < b) := by
  unfold isCont
  rw [Bool.and_eq_false_iff, decide_eq_false_iff_not, decide_eq_false_iff_not]
  omega

theorem decodeRune_width (b : Nat) (k : GoString) :
    1 ≤ (decodeRune (b :: k)).2 ∧ (decodeRune (b :: k)).2 ≤ (b :: k).length := by
  rcases k with _ | ⟨b1, _ | ⟨b2, _ | ⟨b3, k⟩⟩⟩ <;>
    simp only [decodeRune] <;> split_ifs <;> simp

theorem decodeRune_ne_colon (b : Nat) (k : GoString) (hb : b ≠ 58) :
    (decodeRune (b :: k)).1 ≠ 58 := by
  have hlo := acceptLo_spec b
  have hhi := acceptHi_spec b
  simp only [decodeRune, isCont_iff]
  generalize acceptLo b = lo at *
  generalize acceptHi b = hi at *
  repeat' split
  all_goals simp only [RuneError]
  all_goals omega

theorem decodeRune_append_colon (b : Nat) (k v : GoString) :
    decodeRune (b :: k ++ 58 :: v) = decodeRune (b :: k) := by
  have hlo := acceptLo_spec b
  rcases k with _ | ⟨b1, _ | ⟨b2, _ | ⟨b3, k⟩⟩⟩ <;>
    simp only [decodeRune, isCont_iff, List.cons_append, List.nil_append] <;>
    generalize acceptLo b = lo at * <;>
    repeat' split
  all_goals first | rfl | (exfalso; omega)

theorem getTagLoop_colon (v : GoString) : ∀ (n : Nat) (k : GoString) (off idx : Nat)
    (tag : List Nat), k.length ≤ n → 58 ∉ k →
    getTagLoop (rangeFrom 0 off (k ++ 58 :: v)) idx tag
      = (tag ++ (rangeFrom 0 off k).map Prod.snd, off + k.length) := by
  intro n
  induction n with
  | zero =>
    intro k off idx tag hlen _
    have hk : k = [] := List.length_eq_zero.mp (Nat.le_zero.mp hlen)
    subst hk
    simp [rangeFrom, decodeRune, getTagLoop]
  | succ n ih =>
    intro k off idx tag hlen hk
    cases k with
    | nil => simp [rangeFrom, decodeRune, getTagLoop]
    | cons b k =>
      have hb : b ≠ 58 := fun h => hk (by simp [h])
      have hk2 : 58 ∉ k := fun h => hk (by simp [h])
      have hw := decodeRune_width b k
      have hne := decodeRune_ne_colon b k hb
      have hctx := decodeRune_append_colon b k v
      rw [List.cons_append] at hctx
      have hdrop : List.drop ((decodeRune (b :: k)).2 - 1) (k ++ 58 :: v)
          = List.drop ((decodeRune (b :: k)).2 - 1) k ++ 58 :: v := by
        apply List.drop_append_of_le_length
        simp only [List.length_cons] at hw
        omega
      have hk3 : 58 ∉ List.drop ((decodeRune (b :: k)).2 - 1) k :=
        fun h => hk2 (List.mem_of_mem_drop h)
      have hlen3 : (List.drop ((decodeRune (b :: k)).2 - 1) k).length ≤ n := by
        simp only [List.length_cons] at hlen hw
        simp only [List.length_drop]
        omega
      rw [List.cons_append, rangeFrom, hctx, getTagLoop, if_neg hne, rangeFrom, List.map_cons]
      rw [rangeFrom_skip (k ++ 58 :: v), rangeFrom_skip k, hdrop, ih _ _ _ _ hlen3 hk3]
      simp only [List.length_cons] at hw
      simp only [List.length_drop, List.length_cons, List.append_assoc, List.singleton_append,
        Prod.mk.injEq, true_and]
      omega

theorem getTag_colon (k v : GoString) (hk : 58 ∉ k) :
    getTag (k ++ 58 :: v) = (toValidUTF8 k, k.length + 1) := by
  simp [getTag, rangeString, toValidUTF8, getTagLoop_colon v k.length k 0 0 [] (le_refl _) hk]


theorem validFrom_skip (s : GoString) : ∀ (k : Nat),
    validFrom k s = validFrom 0 (s.drop k) := by
  induction s with
  | nil => intro k; simp [validFrom]
  | cons b rest ih =>
    intro k
    cases k with
    | zero => simp
    | succ k => rw [validFrom, ih k, List.drop_succ_cons]

theorem encodeRune_decodeRune (b : Nat) (k : GoString)
    (h : decodeRune (b :: k) ≠ (RuneError, 1)) :
    encodeRune (decodeRune (b :: k)).1 = (b :: k).take (decodeRune (b :: k)).2 := by
  have hlo := acceptLo_spec b
  have hhi := acceptHi_spec b
  revert h
  simp only [decodeRune, isCont_iff]
  generalize acceptLo b = lo at *
  generalize acceptHi b = hi at *
  repeat' split
  all_goals intro h
  all_goals first
    | exact absurd rfl h
    | (simp only [encodeRune, List.take_succ_cons, List.take_zero]
       split_ifs <;> first | (exfalso; omega) | (simp only [List.cons.injEq, and_true] <;> omega))

theorem toValidUTF8_of_valid : ∀ (n : Nat) (k : GoString) (off : Nat), k.length ≤ n →
    validFrom 0 k = true → encodeRunes ((rangeFrom 0 off k).map Prod.snd) = k := by
  intro n
  induction n with
  | zero =>
    intro k off hlen _
    have hk : k = [] := List.length_eq_zero.mp (Nat.le_zero.mp hlen)
    subst hk
    simp [rangeFrom, encodeRunes]
  | succ n ih =>
    intro k off hlen hv
    cases k with
    | nil => simp [rangeFrom, encodeRunes]
    | cons b k =>
      have hw := decodeRune_width b k
      simp only [List.length_cons] at hw hlen
      rw [validFrom, Bool.and_eq_true, decide_eq_true_eq, validFrom_skip] at hv
      have hlen3 : (List.drop ((decodeRune (b :: k)).2 - 1) k).length ≤ n := by
        simp only [List.length_drop]
        omega
      rw [rangeFrom, List.map_cons, encodeRunes, rangeFrom_skip, ih _ _ hlen3 hv.2,
        encodeRune_decodeRune b k hv.1]
      have hsplit : (decodeRune (b :: k)).2 = ((decodeRune (b :: k)).2 - 1) + 1 := by omega
      generalize (decodeRune (b :: k)).2 - 1 = w at hsplit ⊢
      rw [hsplit, List.take_succ_cons, List.cons_append, List.take_append_drop]

theorem toValidUTF8_eq (k : GoString) (h : ValidString k = true) : toValidUTF8 k = k :=
  toValidUTF8_of_valid k.length k 0 (le_refl _) h

theorem stringsSplit_ne_nil (sep : Nat) (s : GoString) : stringsSplit sep s ≠ [] := by
  induction s with
  | nil => simp [stringsSplit]
  | cons b rest ih =>
    rw [stringsSplit]
    split_ifs
    · simp
    · split <;> simp

theorem stringsSplit_single (sep : Nat) (t : GoString) (h : sep ∉ t) :
    stringsSplit sep t = [t] := by
  induction t with
  | nil => rfl
  | cons b rest ih =>
    have hb : b ≠ sep := fun e => h (by simp [e])
    have hr : sep ∉ rest := fun e => h (by simp [e])
    rw [stringsSplit, if_neg hb, ih hr]

theorem stringsSplit_append (sep : Nat) (t rest : GoString) (h : sep ∉ t) :
    stringsSplit sep (t ++ sep :: rest) = t :: stringsSplit sep rest := by
  induction t with
  | nil => simp [stringsSplit]
  | cons b t ih =>
    have hb : b ≠ sep := fun e => h (by simp [e])
    have hr : sep ∉ t := fun e => h (by simp [e])
    rw [List.cons_append, stringsSplit, if_neg hb, ih hr]

theorem stringsSplit_joinSpace (ts : List GoString) (hne : ts ≠ [])
    (h : ∀ t ∈ ts, 32 ∉ t) : stringsSplit 32 (joinSpace ts) = ts := by
  induction ts with
  | nil => exact absurd rfl hne
  | cons t ts ih =>
    cases ts with
    | nil => exact stringsSplit_single 32 t (h t (by simp))
    | cons t2 ts =>
      rw [show joinSpace (t :: t2 :: ts) = t ++ 32 :: joinSpace (t2 :: ts) from rfl,
        stringsSplit_append 32 t _ (h t (by simp)),
        ih (List.cons_ne_nil _ _) (fun u hu => h u (List.mem_cons_of_mem _ hu))]

theorem parseParamsLoop_tokens (kvs : List (GoString × GoString)) :
    ∀ (m : GoMap), (∀ kv ∈ kvs, 58 ∉ kv.1) →
    parseParamsLoop (kvs.map token) m
      = .ok ((kvs.map (fun kv => (toValidUTF8 kv.1, kv.2))).reverse ++ m) := by
  induction kvs with
  | nil => intro m _; simp [parseParamsLoop]
  | cons kv kvs ih =>
    intro m h
    have hk : 58 ∉ kv.1 := h kv (by simp)
    rw [List.map_cons, parseParamsLoop, token, getTag_colon kv.1 kv.2 hk]
    have hlen : kv.1.length + 1 ≤ (kv.1 ++ 58 :: kv.2).length := by simp
    simp only [hlen, if_true]
    rw [ih _ (fun u hu => h u (by simp [hu]))]
    have hd : List.drop (kv.1.length + 1) (kv.1 ++ 58 :: kv.2) = kv.2 := by
      rw [List.drop_append_eq_append_drop]
      simp
    simp [hd]

theorem trimLeft_of_head (c : Nat) (s : GoString) (h : s.head? ≠ some c) :
    trimLeft c s = s := by
  cases s with
  | nil => rfl
  | cons b rest =>
    have hb : b ≠ c := fun e => h (by simp [e])
    rw [trimLeft, if_neg hb]

theorem stringsTrim_quoted (c : Nat) (X : GoString) (h1 : X.head? ≠ some c)
    (h2 : X.getLast? ≠ some c) : stringsTrim c (c :: X ++ [c]) = X := by
  unfold stringsTrim
  rw [List.cons_append, trimLeft, if_pos rfl]
  cases X with
  | nil => simp [trimLeft]
  | cons x X =>
    have hx : x ≠ c := fun e => h1 (by simp [e])
    rw [List.cons_append, trimLeft, if_neg hx]
    have : (x :: (X ++ [c])).reverse = c :: (x :: X).reverse := by simp
    rw [this, trimLeft, if_pos rfl, trimLeft_of_head, List.reverse_reverse]
    rw [List.head?_reverse]
    exact h2

theorem parseUintLoop_natTextAux : ∀ (fuel n : Nat) (acc : GoString), n < fuel →
    n ≤ maxUint64 → parseUintLoop (natTextAux fuel n acc) 0 = parseUintLoop acc n := by
  intro fuel
  induction fuel with
  | zero => intro n acc h; omega
  | succ fuel ih =>
    intro n acc hfuel hn
    rw [natTextAux]
    unfold maxUint64 at hn
    split_ifs with h10
    · have h1 : 48 ≤ n + 48 ∧ n + 48 ≤ 57 := by omega
      have h2 : ¬ (maxUint64 / 10 + 1 ≤ 0) := by unfold maxUint64; omega
      have h3 : ¬ (maxUint64 < 0 * 10 + (n + 48 - 48)) := by unfold maxUint64; omega
      have h4 : 0 * 10 + (n + 48 - 48) = n := by omega
      rw [parseUintLoop, if_pos h1, if_neg h2, if_neg h3, h4]
    · have hle : n / 10 ≤ maxUint64 := by unfold maxUint64; omega
      rw [ih (n / 10) _ (by omega) hle, parseUintLoop]
      have h1 : 48 ≤ n % 10 + 48 ∧ n % 10 + 48 ≤ 57 := by omega
      have h2 : ¬ (maxUint64 / 10 + 1 ≤ n / 10) := by unfold maxUint64; omega
      have h3 : ¬ (maxUint64 < n / 10 * 10 + (n % 10 + 48 - 48)) := by unfold maxUint64; omega
      have h4 : n / 10 * 10 + (n % 10 + 48 - 48) = n := by omega
      rw [if_pos h1, if_neg h2, if_neg h3, h4]

theorem natTextAux_ne_nil : ∀ (fuel n : Nat) (acc : GoString),
    (0 < fuel ∨ acc ≠ []) → natTextAux fuel n acc ≠ [] := by
  intro fuel
  induction fuel with
  | zero => intro n acc h; rcases h with h | h; · omega
            · simpa [natTextAux] using h
  | succ fuel ih =>
    intro n acc _
    rw [natTextAux]
    split_ifs
    · simp
    · exact ih _ _ (Or.inr (by simp))

theorem natTextAux_digit : ∀ (fuel n : Nat) (acc : GoString),
    (∀ c ∈ acc, 48 ≤ c ∧ c ≤ 57) → ∀ c ∈ natTextAux fuel n acc, 48 ≤ c ∧ c ≤ 57 := by
  intro fuel
  induction fuel with
  | zero => intro n acc h; simpa [natTextAux] using h
  | succ fuel ih =>
    intro n acc hacc
    rw [natTextAux]
    split_ifs with h10
    · intro c hc
      rcases List.mem_cons.mp hc with rfl | hc
      · omega
      · exact hacc c hc
    · apply ih
      intro c hc
      rcases List.mem_cons.mp hc with rfl | hc
      · omega
      · exact hacc c hc

theorem natText_ne_nil (n : Nat) : natText n ≠ [] :=
  natTextAux_ne_nil (n + 1) n [] (Or.inl (Nat.succ_pos n))

theorem natText_digit (n : Nat) : ∀ c ∈ natText n, 48 ≤ c ∧ c ≤ 57 :=
  natTextAux_digit (n + 1) n [] (by simp)

theorem ParseUint_natText (n : Nat) (hn : n ≤ maxUint64) : ParseUint (natText n) = .ok n := by
  unfold ParseUint
  rw [if_neg (natText_ne_nil n)]
  unfold natText
  rw [parseUintLoop_natTextAux (n + 1) n [] (Nat.lt_succ_self n) hn, parseUintLoop]

theorem ParseInt_intText (z : Int) (h1 : -2 ^ 63 ≤ z) (h2 : z < 2 ^ 63) :
    ParseInt (intText z) = .ok z := by
  unfold intText
  split_ifs with hneg
  · have hn : z.natAbs ≤ maxUint64 := by unfold maxUint64; omega
    simp only [ParseInt, or_true, if_true, ParseUint_natText _ hn]
    have e2 : ¬ (2 ^ 63 < z.natAbs) := by omega
    simp only [ne_eq, not_true_eq_false, false_and, if_false, true_and, if_neg e2]
    congr 1
    omega
  · have hn : z.natAbs ≤ maxUint64 := by unfold maxUint64; omega
    have hne := natText_ne_nil z.natAbs
    have hdig := natText_digit z.natAbs
    have hp := ParseUint_natText _ hn
    cases hs : natText z.natAbs with
    | nil => exact absurd hs hne
    | cons c rest =>
      rw [hs] at hdig hp
      have hc := hdig c (by simp)
      have c1 : ¬ (c = 43 ∨ c = 45) := by omega
      have c2 : c ≠ 45 := by omega
      simp only [ParseInt, if_neg c1, hp]
      have e1 : ¬ (c ≠ 45 ∧ 2 ^ 63 ≤ z.natAbs) := by omega
      have e2 : ¬ (c = 45 ∧ 2 ^ 63 < z.natAbs) := by omega
      rw [if_neg e1, if_neg e2, if_neg c2]
      congr 1
      omega

theorem toInt_of_range (z : Int) (h1 : -2 ^ 63 ≤ z) (h2 : z < 2 ^ 63) : toInt z = z := by
  unfold toInt
  omega

theorem envKw_eq : envKw = [101, 110, 118] := by decide

theorem fallbackKw_eq : fallbackKw = [102, 97, 108, 108, 98, 97, 99, 107] := by decide

theorem envTag_eq (N : GoString) : envTag N = token (envKw, 34 :: N ++ [34]) := by
  have h1 : goStr "env:\"" = [101, 110, 118, 58, 34] := by decide
  have h2 : goStr "\"" = [34] := by decide
  simp [envTag, token, h1, h2, envKw_eq]

theorem envFallbackTag_eq (N F : GoString) :
    envFallbackTag N F
      = joinSpace [token (envKw, 34 :: N ++ [34]), token (fallbackKw, 34 :: F ++ [34])] := by
  have h1 : goStr "env:\"" = [101, 110, 118, 58, 34] := by decide
  have h2 : goStr "\"" = [34] := by decide
  have h3 : goStr "\" fallback:\"" = [34, 32, 102, 97, 108, 108, 98, 97, 99, 107, 58, 34] := by
    decide
  simp [envFallbackTag, joinSpace, token, h1, h2, h3, envKw_eq, fallbackKw_eq]

/-- The tokenizer on a tag made of `keyword:value` tokens joined by single spaces. -/
theorem parseParams_tokens (kvs : List (GoString × GoString)) (hne : kvs ≠ [])
    (hsp : ∀ kv ∈ kvs, 32 ∉ kv.1 ∧ 32 ∉ kv.2) (hcolon : ∀ kv ∈ kvs, 58 ∉ kv.1) :
    parseParams (joinSpace (kvs.map token))
      = .ok ((kvs.map (fun kv => (toValidUTF8 kv.1, kv.2))).reverse) := by
  unfold parseParams
  rw [stringsSplit_joinSpace _ (by simpa using hne), parseParamsLoop_tokens kvs [] hcolon,
    List.append_nil]
  intro t ht
  obtain ⟨kv, hkv, rfl⟩ := List.mem_map.mp ht
  have := hsp kv hkv
  simp [token, this.1, this.2]

theorem parseParams_envTag (N : GoString) (hN : 32 ∉ N) :
    parseParams (envTag N) = .ok [(envKw, 34 :: N ++ [34])] := by
  have h := parseParams_tokens [(envKw, 34 :: N ++ [34])] (by simp)
    (by simp [envKw_eq, hN]) (by simp [envKw_eq])
  have hv : toValidUTF8 envKw = envKw := by decide
  simpa [joinSpace, envTag_eq, hv] using h

theorem parseParams_envFallbackTag (N F : GoString) (hN : 32 ∉ N) (hF : 32 ∉ F) :
    parseParams (envFallbackTag N F)
      = .ok [(fallbackKw, 34 :: F ++ [34]), (envKw, 34 :: N ++ [34])] := by
  have h := parseParams_tokens [(envKw, 34 :: N ++ [34]), (fallbackKw, 34 :: F ++ [34])]
    (by simp) (by simp [envKw_eq, fallbackKw_eq, hN, hF]) (by simp [envKw_eq, fallbackKw_eq])
  have hv : toValidUTF8 envKw = envKw := by decide
  have hv2 : toValidUTF8 fallbackKw = fallbackKw := by decide
  rw [envFallbackTag_eq]
  simpa [hv, hv2] using h

theorem head?_ne_of_not_mem (c : Nat) (X : GoString) (h : c ∉ X) : X.head? ≠ some c :=
  fun e => h (List.mem_of_mem_head? (by simp [e]))

theorem getLast?_ne_of_not_mem (c : Nat) (X : GoString) (h : c ∉ X) : X.getLast? ≠ some c :=
  fun e => h (List.mem_of_getLast?_eq_some e)

theorem stringsTrim_quoted_of_not_mem (X : GoString) (h : 34 ∉ X) :
    stringsTrim 34 (34 :: X ++ [34]) = X :=
  stringsTrim_quoted 34 X (head?_ne_of_not_mem 34 X h) (getLast?_ne_of_not_mem 34 X h)

/-- One loop iteration on an exported field tagged `env:"N" fallback:"F"`. -/
theorem parseField_envFallbackTag (e : Env) (f : Field) (N F : GoString)
    (hexp : f.exported = true) (htag : f.Tag = envFallbackTag N F)
    (hN : 32 ∉ N ∧ 34 ∉ N) (hF : 32 ∉ F ∧ 34 ∉ F) :
    parseField e true f = .ok (setField e N F f) := by
  have hne : envFallbackTag N F ≠ [] := by
    rw [envFallbackTag_eq]; simp [joinSpace, token, envKw_eq]
  have hkw : (envKw == fallbackKw) = false := by decide
  simp only [parseField, hexp, htag, if_neg hne, parseParams_envFallbackTag N F hN.1 hF.1,
    GoMap.index, List.lookup, hkw, beq_self_eq_true, Option.getD_some,
    stringsTrim_quoted_of_not_mem N hN.2, stringsTrim_quoted_of_not_mem F hF.2]
  simp

/-! ## The loop over the fields -/

/-- When the loop ends without a panic, every field holds the result of its own iteration. -/
theorem parseFields_getElem (e : Env) (addr : Bool) : ∀ (fs : List Field) (i : Nat) (f : Field),
    (parseFields e addr fs).1 = .returned none → fs[i]? = some f →
    ∃ g, parseField e addr f = .ok g ∧ (parseFields e addr fs).2[i]? = some g := by
  intro fs
  induction fs with
  | nil => intro i f _ h; simp at h
  | cons f0 rest ih =>
    intro i f hret hi
    rw [parseFields] at hret ⊢
    cases hp : parseField e addr f0 with
    | error p => rw [hp] at hret; simp at hret
    | ok g0 =>
      rw [hp] at hret
      simp only at hret ⊢
      cases i with
      | zero =>
        simp only [List.getElem?_cons_zero, Option.some.injEq] at hi
        subst hi
        exact ⟨g0, hp, by simp⟩
      | succ i =>
        simp only [List.getElem?_cons_succ] at hi ⊢
        exact ih i f hret hi

/-- A field whose iteration cannot change it is the same after the loop, however the loop
ends. -/
theorem parseFields_frame (e : Env) (addr : Bool) : ∀ (fs : List Field) (i : Nat) (f : Field),
    fs[i]? = some f → (∀ g, parseField e addr f = .ok g → g = f) →
    (parseFields e addr fs).2[i]? = some f := by
  intro fs
  induction fs with
  | nil => intro i f h; simp at h
  | cons f0 rest ih =>
    intro i f hi hsame
    rw [parseFields]
    cases hp : parseField e addr f0 with
    | error p => simpa using hi
    | ok g0 =>
      simp only
      cases i with
      | zero =>
        simp only [List.getElem?_cons_zero, Option.some.injEq] at hi
        subst hi
        simp [hsame g0 hp]
      | succ i =>
        simp only [List.getElem?_cons_succ] at hi ⊢
        exact ih i f hi hsame

theorem Parse_pointer_struct (e : Env) (fs : List Field) :
    Parse e (.pointerTo (.struct fs))
      = ((parseFields e true fs).1, .pointerTo (.struct (parseFields e true fs).2)) := by
  simp [Parse, parse, Value.Elem, Value.Kind, Value.fields, Value.store]

/-- After a call that returns, a field tagged `env:"N" fallback:"F"` holds what the type
switch computes from `N` and `F`. -/
theorem Parse_field_envFallbackTag (e : Env) (fs : List Field) (i : Nat) (fld : Field)
    (N F : GoString) (hfld : fs[i]? = some fld) (hexp : fld.exported = true)
    (htag : fld.Tag = envFallbackTag N F) (hN : 32 ∉ N ∧ 34 ∉ N) (hF : 32 ∉ F ∧ 34 ∉ F)
    (hret : (Parse e (.pointerTo (.struct fs))).1 = .returned none) :
    (Parse e (.pointerTo (.struct fs))).2.fieldVal i = some (setField e N F fld).val := by
  rw [Parse_pointer_struct] at hret ⊢
  obtain ⟨g, hg, hget⟩ := parseFields_getElem e true fs i fld hret hfld
  rw [parseField_envFallbackTag e fld N F hexp htag hN hF] at hg
  simp only [Except.ok.injEq] at hg
  subst hg
  simp [Value.fieldVal, hget]

theorem intText_clean (z : Int) : 32 ∉ intText z ∧ 34 ∉ intText z := by
  have h := natText_digit z.natAbs
  have key : ∀ c ∈ intText z, c = 45 ∨ (48 ≤ c ∧ c ≤ 57) := by
    intro c hc
    unfold intText at hc
    split_ifs at hc
    · rcases List.mem_cons.mp hc with hc | hc
      · exact Or.inl hc
      · exact Or.inr (h c hc)
    · exact Or.inr (h c hc)
  constructor
  · intro hm
    have h32 := key 32 hm
    omega
  · intro hm
    have h34 := key 34 hm
    omega

/-! ## Field resolution through `Parse` -/

/-- C1: a settable field of kind int tagged `env:"N" fallback:"F"`, where `N` has no space and
no double quote and `F` is the base-10 text of the signed 64-bit integer `f`, holds after
`Parse`: `f` when `N` is unbound, `n` when `N` is bound to the base-10 text of the signed
64-bit integer `n`, and `f` when `N` is bound to a text that `ParseInt` rejects. -/
theorem Parse_int_field (e : Env) (fs : List Field) (i : Nat) (fld : Field)
    (N F : GoString) (f : Int)
    (hfld : fs[i]? = some fld) (hexp : fld.exported = true) (hkind : fld.val.Kind = Kind.Int)
    (htag : fld.Tag = envFallbackTag N F) (hN : 32 ∉ N ∧ 34 ∉ N)
    (hf : -2 ^ 63 ≤ f ∧ f < 2 ^ 63) (hF : F = intText f)
    (hret : (Parse e (.pointerTo (.struct fs))).1 = .returned none) :
    (e N = none → (Parse e (.pointerTo (.struct fs))).2.fieldVal i = some (.int f)) ∧
    (∀ n : Int, -2 ^ 63 ≤ n → n < 2 ^ 63 → e N = some (intText n) →
      (Parse e (.pointerTo (.struct fs))).2.fieldVal i = some (.int n)) ∧
    (∀ v : GoString, e N = some v → (∀ n, ParseInt v ≠ .ok n) →
      (Parse e (.pointerTo (.struct fs))).2.fieldVal i = some (.int f)) := by
  have hFc : 32 ∉ F ∧ 34 ∉ F := hF ▸ intText_clean f
  have hmain := Parse_field_envFallbackTag e fs i fld N F hfld hexp htag hN hFc hret
  have hPF : ParseInt F = .ok f := hF ▸ ParseInt_intText f hf.1 hf.2
  have hset : (setField e N F fld).val = .int (toInt (envInt e N f)) := by
    simp [setField, hkind, hPF]
  rw [hmain, hset]
  refine ⟨?_, ?_, ?_⟩
  · intro hnone
    simp [envInt, hnone, toInt_of_range f hf.1 hf.2]
  · intro n hn1 hn2 hsome
    simp [envInt, hsome, ParseInt_intText n hn1 hn2, toInt_of_range n hn1 hn2]
  · intro v hsome hbad
    cases hv : ParseInt v with
    | ok n => exact absurd hv (hbad n)
    | error err => simp [envInt, hsome, hv, toInt_of_range f hf.1 hf.2]

/-- C2: a settable field of kind string tagged `env:"N" fallback:"F"`, where `N` and `F` have
no space and no double quote, holds after `Parse` the raw value bound to `N` when `N` is bound
(the empty string included), and `F` when `N` is unbound. -/
theorem Parse_string_field (e : Env) (fs : List Field) (i : Nat) (fld : Field)
    (N F : GoString)
    (hfld : fs[i]? = some fld) (hexp : fld.exported = true)
    (hkind : fld.val.Kind = Kind.String)
    (htag : fld.Tag = envFallbackTag N F) (hN : 32 ∉ N ∧ 34 ∉ N) (hF : 32 ∉ F ∧ 34 ∉ F)
    (hret : (Parse e (.pointerTo (.struct fs))).1 = .returned none) :
    (∀ v : GoString, e N = some v →
      (Parse e (.pointerTo (.struct fs))).2.fieldVal i = some (.str v)) ∧
    (e N = none → (Parse e (.pointerTo (.struct fs))).2.fieldVal i = some (.str F)) := by
  have hmain := Parse_field_envFallbackTag e fs i fld N F hfld hexp htag hN hF hret
  have hset : (setField e N F fld).val = .str (envString e N F) := by
    simp [setField, hkind]
  rw [hmain, hset]
  constructor
  · intro v hsome; simp [envString, hsome]
  · intro hnone; simp [envString, hnone]

/-- C3: a settable field of kind bool tagged `env:"N" fallback:"F"` (no space, no double quote
in `N` and `F`) holds after `Parse`: the effective fallback (what `F` parses to, `false` when it
does not parse) when `N` is unbound; the boolean `b` when `N` is bound to a text that parses
to `b`; the effective fallback when `N` is bound to a text that does not parse. -/
theorem Parse_bool_field (e : Env) (fs : List Field) (i : Nat) (fld : Field)
    (N F : GoString)
    (hfld : fs[i]? = some fld) (hexp : fld.exported = true) (hkind : fld.val.Kind = Kind.Bool)
    (htag : fld.Tag = envFallbackTag N F) (hN : 32 ∉ N ∧ 34 ∉ N) (hF : 32 ∉ F ∧ 34 ∉ F)
    (hret : (Parse e (.pointerTo (.struct fs))).1 = .returned none) :
    (e N = none →
      (Parse e (.pointerTo (.struct fs))).2.fieldVal i = some (.bool (effectiveBool F))) ∧
    ((∀ b, ParseBool F ≠ .ok b) → effectiveBool F = false) ∧
    (∀ b, ParseBool F = .ok b → effectiveBool F = b) ∧
    (∀ (v : GoString) (b : Bool), e N = some v → ParseBool v = .ok b →
      (Parse e (.pointerTo (.struct fs))).2.fieldVal i = some (.bool b)) ∧
    (∀ v : GoString, e N = some v → (∀ b, ParseBool v ≠ .ok b) →
      (Parse e (.pointerTo (.struct fs))).2.fieldVal i = some (.bool (effectiveBool F))) := by
  have hmain := Parse_field_envFallbackTag e fs i fld N F hfld hexp htag hN hF hret
  have hset : (setField e N F fld).val = .bool (envBool e N (effectiveBool F)) := by
    cases hv : ParseBool F <;> simp [setField, hkind, effectiveBool, hv]
  rw [hmain, hset]
  refine ⟨?_, ?_, ?_, ?_, ?_⟩
  · intro hnone; simp [envBool, hnone]
  · intro hbad
    unfold effectiveBool
    cases hv : ParseBool F with
    | ok b => exact absurd hv (hbad b)
    | error err => rfl
  · intro b hb; simp [effectiveBool, hb]
  · intro v b hsome hb; simp [envBool, hsome, hb]
  · intro v hsome hbad
    cases hv : ParseBool v with
    | ok b => exact absurd hv (hbad b)
    | error err => simp [envBool, hsome, hv]

theorem Parse_int_field_witness :
    (Parse envX42 (.pointerTo (.struct
      [mkField "Port" "env:\"X\" fallback:\"5\"" (.int 0)]))).2.fieldVal 0 = some (.int 42) :=
  (Parse_int_field envX42 [mkField "Port" "env:\"X\" fallback:\"5\"" (.int 0)] 0
    (mkField "Port" "env:\"X\" fallback:\"5\"" (.int 0)) (goStr "X") (goStr "5") 5
    rfl rfl rfl (by decide) (by decide) (by decide) (by decide) (by decide)).2.1
    42 (by decide) (by decide) (by decide)

theorem Parse_string_field_witness :
    (Parse envX42 (.pointerTo (.struct
      [mkField "Name" "env:\"NAME\" fallback:\"anon\"" (.str [])]))).2.fieldVal 0
      = some (.str (goStr "anon")) :=
  (Parse_string_field envX42 [mkField "Name" "env:\"NAME\" fallback:\"anon\"" (.str [])] 0
    (mkField "Name" "env:\"NAME\" fallback:\"anon\"" (.str [])) (goStr "NAME") (goStr "anon")
    rfl rfl rfl (by decide) (by decide) (by decide) (by decide)).2 (by decide)

theorem Parse_bool_field_witness :
    (Parse envX42 (.pointerTo (.struct
      [mkField "Flag" "env:\"FLAG\" fallback:\"maybe\"" (.bool true)]))).2.fieldVal 0
      = some (.bool (effectiveBool (goStr "maybe"))) :=
  (Parse_bool_field envX42 [mkField "Flag" "env:\"FLAG\" fallback:\"maybe\"" (.bool true)] 0
    (mkField "Flag" "env:\"FLAG\" fallback:\"maybe\"" (.bool true)) (goStr "FLAG")
    (goStr "maybe") rfl rfl rfl (by decide) (by decide) (by decide) (by decide)).1 (by decide)

/-- Texts that do not parse: `abc` and a numeral one past the largest `int64` are rejected by
`ParseInt`, `maybe` by `ParseBool`; a rejected text bound to the variable gives the fallback. -/
theorem rejected_texts :
    ParseInt (goStr "abc") = .error .ErrSyntax
    ∧ ParseInt (goStr "9223372036854775808") = .error .ErrRange
    ∧ ParseInt (goStr "-9223372036854775808") = .ok (-9223372036854775808)
    ∧ ParseBool (goStr "maybe") = .error .ErrSyntax
    ∧ envInt (fun _ => some (goStr "abc")) (goStr "X") 5 = 5 :=
  ⟨rfl, rfl, rfl, rfl, rfl⟩

/-! ## Inputs that are not a pointer to a struct -/

/-- C4, as stated, fails: on a plain integer, on a struct passed by value and on `nil`,
`Parse` panics in `reflect.Value.Elem` instead of returning "value must be a struct". -/
theorem Parse_non_pointer_panics :
    (Parse emptyEnv (.basic .Int)).1 = .panicked .elemOnNonPointer
    ∧ (Parse emptyEnv (.struct [mkField "Port" "env:\"X\"" (.int 0)])).1
        = .panicked .elemOnNonPointer
    ∧ (Parse emptyEnv .invalid).1 = .panicked .elemOnNonPointer
    ∧ (Parse emptyEnv (.basic .Int)).1 ≠ .returned (some errNotStruct) := by
  decide

/-- C4, amended: for every pointer whose target is not a struct, and for the nil pointer,
`Parse` returns the error "value must be a struct" and leaves the input as it was. -/
theorem Parse_pointer_to_non_struct (e : Env) (v : Value) (h : v.Kind ≠ Kind.Struct) :
    Parse e (.pointerTo v) = (.returned (some errNotStruct), .pointerTo v)
    ∧ Parse e .nilPointer = (.returned (some errNotStruct), .nilPointer) := by
  constructor
  · simp [Parse, parse, Value.Elem, h]
  · simp [Parse, parse, Value.Elem, Value.Kind]

theorem Parse_pointer_to_non_struct_witness :
    Parse envX42 (.pointerTo (.basic .Int))
        = (.returned (some errNotStruct), .pointerTo (.basic .Int))
    ∧ Parse envX42 .nilPointer = (.returned (some errNotStruct), .nilPointer) :=
  Parse_pointer_to_non_struct envX42 (.basic .Int) (by decide)

/-! ## Empty tokens -/

/-- C5: on a pointer to a struct whose only field has two consecutive spaces in its tag,
`Parse` panics with a slice-bounds error and returns nothing. -/
theorem Parse_panics_on_consecutive_spaces :
    Parse emptyEnv (.pointerTo (.struct [mkField "Port" "env:\"X\"  fallback:\"5\"" (.int 0)]))
      = (.panicked (.sliceBounds 1 0),
          .pointerTo (.struct [mkField "Port" "env:\"X\"  fallback:\"5\"" (.int 0)])) := by
  decide

/-- C7: `parseParams` panics with a slice-bounds error (`param[1:]` of an empty token) on the
empty tag, and on tags with a leading, a trailing, or two consecutive spaces. -/
theorem parseParams_panics_on_empty_token :
    parseParams (goStr "") = .error (.sliceBounds 1 0)
    ∧ parseParams (goStr " env:\"X\"") = .error (.sliceBounds 1 0)
    ∧ parseParams (goStr "env:\"X\" ") = .error (.sliceBounds 1 0)
    ∧ parseParams (goStr "env:\"X\"  fallback:\"5\"") = .error (.sliceBounds 1 0) :=
  ⟨rfl, rfl, rfl, rfl⟩

/-! ## Fields that are not environment-driven -/

/-- C6: a field with an empty tag, or whose tag tokenizes to a mapping without the `env`
keyword, has after `Parse` the value it had before, for every environment, every kind of
field and every other field of the struct (however the call ends). -/
theorem Parse_untagged_field_unchanged (e : Env) (fs : List Field) (i : Nat) (fld : Field)
    (hfld : fs[i]? = some fld)
    (htag : fld.Tag = [] ∨ ∃ m, parseParams fld.Tag = .ok m ∧ m.lookup envKw = none) :
    (Parse e (.pointerTo (.struct fs))).2.fieldVal i = some fld.val
    ∧ (Value.pointerTo (.struct fs)).fieldVal i = some fld.val := by
  have hsame : ∀ g, parseField e true fld = .ok g → g = fld := by
    intro g hg
    unfold parseField at hg
    split_ifs at hg with h1 h2
    · exact (Except.ok.inj hg).symm
    · exact (Except.ok.inj hg).symm
    · rcases htag with h | ⟨m, hm, hl⟩
      · exact absurd h h2
      · rw [hm] at hg
        simp only [hl] at hg
        exact (Except.ok.inj hg).symm
  rw [Parse_pointer_struct]
  simp [Value.fieldVal, parseFields_frame e true fs i fld hfld hsame, hfld]

theorem Parse_untagged_field_unchanged_witness :
    (Parse envX42 (.pointerTo (.struct
        [mkField "Port" "env:\"X\"" (.int 0), mkField "X" "json:\"X\"" (.int 7)]))).2.fieldVal 1
      = some (.int 7)
    ∧ (Value.pointerTo (.struct
        [mkField "Port" "env:\"X\"" (.int 0), mkField "X" "json:\"X\"" (.int 7)])).fieldVal 1
      = some (.int 7) :=
  Parse_untagged_field_unchanged envX42
    [mkField "Port" "env:\"X\"" (.int 0), mkField "X" "json:\"X\"" (.int 7)] 1
    (mkField "X" "json:\"X\"" (.int 7)) rfl
    (Or.inr ⟨[(goStr "json", goStr "\"X\"")], rfl, by decide⟩)

/-! ## The result of the tokenizer -/

theorem lookup_of_mem_nodup : ∀ (l : List (GoString × GoString)) (k v : GoString),
    (l.map Prod.fst).Nodup → (k, v) ∈ l → l.lookup k = some v := by
  intro l
  induction l with
  | nil => intro k v _ h; simp at h
  | cons p l ih =>
    intro k v hnd hmem
    obtain ⟨k0, v0⟩ := p
    simp only [List.map_cons, List.nodup_cons, List.mem_map, not_exists, not_and] at hnd
    rcases List.mem_cons.mp hmem with h | h
    · simp only [Prod.mk.injEq] at h
      obtain ⟨rfl, rfl⟩ := h
      simp
    · have hne : k ≠ k0 := by
        intro heq
        subst heq
        exact hnd.1 (k, v) h rfl
      rw [List.lookup_cons]
      have : (k == k0) = false := by simpa using hne
      rw [this]
      exact ih k v hnd.2 h

/-- C8, as stated, fails: a keyword that is not valid UTF-8 is stored under another key (each
invalid byte becomes U+FFFD), so the tag `\xff:A` yields no entry for the keyword `\xff`. -/
theorem parseParams_invalid_keyword :
    parseParams [255, 58, 65] = .ok [([239, 191, 189], [65])]
    ∧ List.lookup [255] [(([239, 191, 189] : GoString), ([65] : GoString))] = none
    ∧ ([255] : GoString) ≠ [] ∧ 58 ∉ ([255] : GoString) ∧ 32 ∉ ([255] : GoString)
    ∧ 32 ∉ ([65] : GoString) := by
  refine ⟨rfl, ?_, ?_, ?_, ?_, ?_⟩ <;> decide

/-- C8, amended: for a tag made of tokens `k1:v1 ... kn:vn` (`n ≥ 1`) joined by single spaces,
where the keywords are pairwise distinct, valid UTF-8 and without colon or space and the values
are without space, `parseParams` returns a mapping with exactly the keys `k1..kn`, each `ki`
mapped to the raw text `vi`. -/
theorem parseParams_distinct_keywords (kvs : List (GoString × GoString)) (hne : kvs ≠ [])
    (hkey : ∀ kv ∈ kvs, 58 ∉ kv.1 ∧ 32 ∉ kv.1 ∧ ValidString kv.1 = true)
    (hval : ∀ kv ∈ kvs, 32 ∉ kv.2) (hdist : (kvs.map Prod.fst).Nodup) :
    ∃ m, parseParams (joinSpace (kvs.map token)) = .ok m
      ∧ (∀ kv ∈ kvs, m.lookup kv.1 = some kv.2)
      ∧ (∀ k, k ∉ kvs.map Prod.fst → m.lookup k = none) := by
  have hmap : kvs.map (fun kv => (toValidUTF8 kv.1, kv.2)) = kvs := by
    conv_rhs => rw [← List.map_id kvs]
    apply List.map_congr_left
    intro kv hkv
    rw [toValidUTF8_eq kv.1 (hkey kv hkv).2.2]
    rfl
  refine ⟨kvs.reverse, ?_, ?_, ?_⟩
  · rw [parseParams_tokens kvs hne (fun kv h => ⟨(hkey kv h).2.1, hval kv h⟩)
      (fun kv h => (hkey kv h).1), hmap]
  · intro kv hkv
    apply lookup_of_mem_nodup
    · rw [List.map_reverse]; exact List.nodup_reverse.mpr hdist
    · simpa using hkv
  · intro k hk
    rw [List.lookup_eq_none_iff]
    intro p hp
    have hp2 : p ∈ kvs := by simpa using hp
    have : p.1 ≠ k := fun h => hk (h ▸ List.mem_map_of_mem Prod.fst hp2)
    simpa using this.symm

theorem parseParams_distinct_keywords_witness :
    ∃ m, parseParams (goStr "env:\"X\" fallback:\"5\"") = .ok m
      ∧ (∀ kv ∈ [(goStr "env", goStr "\"X\""), (goStr "fallback", goStr "\"5\"")],
          m.lookup kv.1 = some kv.2)
      ∧ (∀ k, k ∉ [(goStr "env", goStr "\"X\""), (goStr "fallback", goStr "\"5\"")].map Prod.fst
          → m.lookup k = none) :=
  parseParams_distinct_keywords [(goStr "env", goStr "\"X\""), (goStr "fallback", goStr "\"5\"")]
    (by decide) (by decide) (by decide) (by decide)

/-! ## Quote round trip -/

/-- C9, as stated, fails: with a fallback that contains a space the tag is cut inside the
quotes, and a later `env:` token replaces the name; `env:"X" fallback:"a env:b"` resolves
to the name `b`, not `X`. -/
theorem envNameOf_fallback_with_space :
    envNameOf (envFallbackTag (goStr "X") (goStr "a env:b")) = some (goStr "b")
    ∧ envNameOf (envFallbackTag (goStr "X") (goStr "a env:b")) ≠ some (goStr "X")
    ∧ envFallbackTag (goStr "X") (goStr "a env:b") = goStr "env:\"X\" fallback:\"a env:b\"" := by
  decide

/-- C9, amended: for every name `X` without space that neither begins nor ends with a double
quote, and every fallback `F` without space, stripping the double quotes from the value that
`parseParams` assigns to `env` yields exactly `X`, for the tag `env:"X"` and for the tag
`env:"X" fallback:"F"`. -/
theorem envNameOf_round_trip (X F : GoString) (hsp : 32 ∉ X) (hhead : X.head? ≠ some 34)
    (hlast : X.getLast? ≠ some 34) (hF : 32 ∉ F) :
    envNameOf (envTag X) = some X ∧ envNameOf (envFallbackTag X F) = some X := by
  have hkw : (envKw == fallbackKw) = false := by decide
  have ht : stringsTrim 34 (34 :: (X ++ [34])) = X := stringsTrim_quoted 34 X hhead hlast
  constructor
  · simp [envNameOf, parseParams_envTag X hsp, List.lookup, ht]
  · simp [envNameOf, parseParams_envFallbackTag X F hsp hF, List.lookup, hkw, ht]

theorem envNameOf_round_trip_witness :
    envNameOf (envTag (goStr "a\"b:c")) = some (goStr "a\"b:c")
    ∧ envNameOf (envFallbackTag (goStr "a\"b:c") (goStr "\"5:\"")) = some (goStr "a\"b:c") :=
  envNameOf_round_trip (goStr "a\"b:c") (goStr "\"5:\"") (by decide) (by decide) (by decide)
    (by decide)

/-! ## Idempotence -/

theorem setField_idem (e : Env) (env fallback : GoString) (f : Field) :
    setField e env fallback (setField e env fallback f) = setField e env fallback f := by
  unfold setField
  split_ifs with h1 h2 h3 <;> simp_all [FieldVal.Kind]

theorem setField_meta (e : Env) (env fallback : GoString) (f : Field) :
    (setField e env fallback f).Tag = f.Tag
    ∧ (setField e env fallback f).exported = f.exported := by
  unfold setField
  split_ifs <;> simp

theorem parseField_idem (e : Env) (addr : Bool) (f g : Field)
    (h : parseField e addr f = .ok g) : parseField e addr g = .ok g := by
  unfold parseField at h
  split_ifs at h with h1 h2
  · cases Except.ok.inj h; unfold parseField; rw [if_pos h1]
  · cases Except.ok.inj h; unfold parseField; rw [if_neg h1, if_pos h2]
  · cases hp : parseParams f.Tag with
    | error p => rw [hp] at h; simp at h
    | ok m =>
      rw [hp] at h
      simp only at h
      cases hl : m.lookup envKw with
      | none =>
        rw [hl] at h
        cases Except.ok.inj h
        unfold parseField
        rw [if_neg h1, if_neg h2, hp]
        simp only [hl]
      | some env =>
        rw [hl] at h
        simp only at h
        have hg := Except.ok.inj h
        have hm := setField_meta e (stringsTrim 34 env)
          (stringsTrim 34 (m.index fallbackKw)) f
        rw [hg] at hm
        unfold parseField
        rw [hm.1, hm.2, if_neg h1, if_neg h2, hp]
        simp only [hl]
        rw [← hg, setField_idem]

theorem parseFields_idem (e : Env) (addr : Bool) : ∀ (fs : List Field),
    (parseFields e addr fs).1 = .returned none →
    parseFields e addr (parseFields e addr fs).2 = (.returned none, (parseFields e addr fs).2) := by
  intro fs
  induction fs with
  | nil => intro _; simp [parseFields]
  | cons f rest ih =>
    intro hret
    rw [parseFields] at hret ⊢
    cases hp : parseField e addr f with
    | error p => rw [hp] at hret; simp at hret
    | ok g =>
      rw [hp] at hret
      simp only at hret ⊢
      rw [parseFields, parseField_idem e addr f g hp]
      simp only [ih hret]

theorem Value.eq_struct_of_kind (t : Value) (h : t.Kind = Kind.Struct) :
    ∃ fs, t = .struct fs := by
  cases t with
  | struct fs => exact ⟨fs, rfl⟩
  | basic k => cases k <;> simp [Value.Kind, BasicKind.toKind] at h
  | _ => simp [Value.Kind] at h

/-- C10: when `Parse` succeeds on an input under an environment, a second `Parse` of the
result under the same environment succeeds too and leaves every field as the first call left
it. -/
theorem Parse_idempotent (e : Env) (v : Value) (h : (Parse e v).1 = .returned none) :
    Parse e (Parse e v).2 = (.returned none, (Parse e v).2) := by
  unfold Parse parse at h ⊢
  cases v with
  | pointerTo t =>
    by_cases hk : t.Kind = Kind.Struct
    · obtain ⟨fs, rfl⟩ := Value.eq_struct_of_kind t hk
      simp only [Value.Elem, Value.Kind, Value.fields, Value.store, ne_eq, not_true_eq_false,
        if_false] at h ⊢
      rw [parseFields_idem e true fs h]
    · simp [Value.Elem, hk] at h
  | interfaceOf t =>
    by_cases hk : t.Kind = Kind.Struct
    · obtain ⟨fs, rfl⟩ := Value.eq_struct_of_kind t hk
      simp only [Value.Elem, Value.Kind, Value.fields, Value.store, ne_eq, not_true_eq_false,
        if_false] at h ⊢
      rw [parseFields_idem e false fs h]
    · simp [Value.Elem, hk] at h
  | _ => simp [Value.Elem, Value.Kind] at h

theorem Parse_idempotent_witness :
    Parse envX42 (Parse envX42 (.pointerTo (.struct
        [mkField "Port" "env:\"X\" fallback:\"5\"" (.int 0),
         mkField "Name" "env:\"NAME\" fallback:\"anon\"" (.str [])]))).2
      = (.returned none, (Parse envX42 (.pointerTo (.struct
        [mkField "Port" "env:\"X\" fallback:\"5\"" (.int 0),
         mkField "Name" "env:\"NAME\" fallback:\"anon\"" (.str [])]))).2) :=
  Parse_idempotent envX42 (.pointerTo (.struct
        [mkField "Port" "env:\"X\" fallback:\"5\"" (.int 0),
         mkField "Name" "env:\"NAME\" fallback:\"anon\"" (.str [])])) (by decide)

/-! ## The default integer fallback -/

theorem parseParams_nil : parseParams [] = .error (.sliceBounds 1 0) := rfl

/-- One loop iteration on an exported field whose tag tokenizes with an `env` entry. -/
theorem parseField_of_env (e : Env) (f : Field) (m : GoMap) (raw : GoString)
    (hexp : f.exported = true) (htok : parseParams f.Tag = .ok m)
    (henv : m.lookup envKw = some raw) :
    parseField e true f
      = .ok (setField e (stringsTrim 34 raw) (stringsTrim 34 (m.index fallbackKw)) f) := by
  have hne : f.Tag ≠ [] := by
    intro h
    rw [h, parseParams_nil] at htok
    cases htok
  unfold parseField
  simp only [hexp, Bool.not_true, Bool.and_self, Bool.or_self, Bool.false_eq_true, if_false,
    if_neg hne, htok, henv]

/-- After a call that returns, an exported field whose tag tokenizes with an `env` entry holds
what the type switch computes. -/
theorem Parse_field_of_env (e : Env) (fs : List Field) (i : Nat) (fld : Field) (m : GoMap)
    (raw : GoString) (hfld : fs[i]? = some fld) (hexp : fld.exported = true)
    (htok : parseParams fld.Tag = .ok m) (henv : m.lookup envKw = some raw)
    (hret : (Parse e (.pointerTo (.struct fs))).1 = .returned none) :
    (Parse e (.pointerTo (.struct fs))).2.fieldVal i
      = some (setField e (stringsTrim 34 raw) (stringsTrim 34 (m.index fallbackKw)) fld).val := by
  rw [Parse_pointer_struct] at hret ⊢
  obtain ⟨g, hg, hget⟩ := parseFields_getElem e true fs i fld hret hfld
  rw [parseField_of_env e fld m raw hexp htok henv] at hg
  simp only [Except.ok.injEq] at hg
  subst hg
  simp [Value.fieldVal, hget]

theorem ParseInt_nil : ParseInt [] = .error .ErrSyntax := rfl

theorem stringsTrim_nil (c : Nat) : stringsTrim c [] = [] := rfl

/-- C11: a settable field of kind int whose tag has an `env` entry naming `N` (its value with
the quotes stripped) and whose fallback entry is absent or does not parse as a base-10 signed
64-bit integer holds `-1` after `Parse` whenever `N` is unbound or bound to a text that does
not parse, whatever it held before. -/
theorem Parse_int_default_fallback (e : Env) (fs : List Field) (i : Nat) (fld : Field)
    (m : GoMap) (raw : GoString)
    (hfld : fs[i]? = some fld) (hexp : fld.exported = true) (hkind : fld.val.Kind = Kind.Int)
    (htok : parseParams fld.Tag = .ok m) (henv : m.lookup envKw = some raw)
    (hfb : m.lookup fallbackKw = none
      ∨ ∀ n, ParseInt (stringsTrim 34 (m.index fallbackKw)) ≠ .ok n)
    (hret : (Parse e (.pointerTo (.struct fs))).1 = .returned none) :
    (e (stringsTrim 34 raw) = none →
      (Parse e (.pointerTo (.struct fs))).2.fieldVal i = some (.int (-1))) ∧
    (∀ v : GoString, e (stringsTrim 34 raw) = some v → (∀ n, ParseInt v ≠ .ok n) →
      (Parse e (.pointerTo (.struct fs))).2.fieldVal i = some (.int (-1))) := by
  have hbad : ∀ n, ParseInt (stringsTrim 34 (m.index fallbackKw)) ≠ .ok n := by
    rcases hfb with h | h
    · intro n
      simp [GoMap.index, h, stringsTrim_nil, ParseInt_nil]
    · exact h
  have hmain := Parse_field_of_env e fs i fld m raw hfld hexp htok henv hret
  have hset : (setField e (stringsTrim 34 raw) (stringsTrim 34 (m.index fallbackKw)) fld).val
      = .int (toInt (envInt e (stringsTrim 34 raw) (-1))) := by
    cases hv : ParseInt (stringsTrim 34 (m.index fallbackKw)) with
    | ok n => exact absurd hv (hbad n)
    | error err => simp [setField, hkind, hv]
  have hm1 : toInt (-1) = -1 := by decide
  rw [hmain, hset]
  constructor
  · intro hnone
    simp [envInt, hnone, hm1]
  · intro v hsome hv
    cases hp : ParseInt v with
    | ok n => exact absurd hp (hv n)
    | error err => simp [envInt, hsome, hp, hm1]

theorem Parse_int_default_fallback_witness :
    (Parse emptyEnv (.pointerTo (.struct [mkField "Port" "env:\"X\"" (.int 7)]))).2.fieldVal 0
      = some (.int (-1)) :=
  (Parse_int_default_fallback emptyEnv [mkField "Port" "env:\"X\"" (.int 7)] 0
    (mkField "Port" "env:\"X\"" (.int 7)) [(goStr "env", goStr "\"X\"")] (goStr "\"X\"")
    rfl rfl rfl rfl (by decide) (Or.inl (by decide)) (by decide)).1 (by decide)

/-! ## Skipped fields -/

theorem parseFields_no_error (e : Env) (addr : Bool) : ∀ (fs : List Field) (err : GoString),
    (parseFields e addr fs).1 ≠ .returned (some err) := by
  intro fs
  induction fs with
  | nil => intro err h; simp [parseFields] at h
  | cons f rest ih =>
    intro err
    rw [parseFields]
    cases hp : parseField e addr f with
    | error p => simp
    | ok g => exact ih err

/-- An iteration panics only on a settable field with a non-empty tag, and with the panic of
the tokenizer on that tag. -/
theorem parseField_error (e : Env) (addr : Bool) (f : Field) (p : Panic)
    (h : parseField e addr f = .error p) :
    f.exported = true ∧ f.Tag ≠ [] ∧ parseParams f.Tag = .error p := by
  unfold parseField at h
  split_ifs at h with h1 h2
  have hexp : f.exported = true := by
    cases hx : f.exported with
    | true => rfl
    | false => simp [hx] at h1
  refine ⟨hexp, h2, ?_⟩
  cases hp : parseParams f.Tag with
  | error q =>
    rw [hp] at h
    simp only [Except.error.injEq] at h
    rw [h]
  | ok m =>
    rw [hp] at h
    simp only at h
    cases hl : m.lookup envKw with
    | none => rw [hl] at h; cases h
    | some env => rw [hl] at h; cases h

/-- The loop returns nil when the tokenizer accepts the tag of every exported field that has
one. -/
theorem parseFields_returns (e : Env) (addr : Bool) : ∀ (fs : List Field),
    (∀ f ∈ fs, f.exported = true → f.Tag ≠ [] → ∀ p, parseParams f.Tag ≠ .error p) →
    (parseFields e addr fs).1 = .returned none := by
  intro fs
  induction fs with
  | nil => intro _; rfl
  | cons f rest ih =>
    intro h
    rw [parseFields]
    cases hp : parseField e addr f with
    | error p =>
      have hp2 := parseField_error e addr f p hp
      exact absurd hp2.2.2 (h f (by simp) hp2.1 hp2.2.1 p)
    | ok g => exact ih (fun f2 hf2 => h f2 (List.mem_cons_of_mem _ hf2))

theorem parseFields_append (e : Env) (addr : Bool) (rest : List Field) :
    ∀ (pre : List Field), (parseFields e addr pre).1 = .returned none →
    parseFields e addr (pre ++ rest)
      = ((parseFields e addr rest).1, (parseFields e addr pre).2 ++ (parseFields e addr rest).2) := by
  intro pre
  induction pre with
  | nil => intro _; simp [parseFields]
  | cons f pre ih =>
    intro h
    rw [parseFields] at h
    rw [List.cons_append, parseFields, parseFields]
    cases hp : parseField e addr f with
    | error p => rw [hp] at h; simp at h
    | ok g =>
      rw [hp] at h
      simp only at h ⊢
      rw [ih h]
      simp

/-- Frame property of the kind switch: a field whose kind is none of string, bool and int has
after `Parse` the value it had before, whatever its tag and the environment are and however
the call ends; the call never returns an error value, and it returns nil when the tokenizer
accepts the tag of every exported field that has one. -/
theorem Parse_unsupported_kind_unchanged (e : Env) (fs : List Field) (i : Nat) (fld : Field)
    (hfld : fs[i]? = some fld)
    (hkind : fld.val.Kind ≠ Kind.String ∧ fld.val.Kind ≠ Kind.Bool ∧ fld.val.Kind ≠ Kind.Int) :
    (Parse e (.pointerTo (.struct fs))).2.fieldVal i = some fld.val
    ∧ (∀ err, (Parse e (.pointerTo (.struct fs))).1 ≠ .returned (some err))
    ∧ ((∀ f ∈ fs, f.exported = true → f.Tag ≠ [] → ∀ p, parseParams f.Tag ≠ .error p) →
        (Parse e (.pointerTo (.struct fs))).1 = .returned none) := by
  have hsame : ∀ g, parseField e true fld = .ok g → g = fld := by
    intro g hg
    unfold parseField at hg
    split_ifs at hg with h1 h2
    · exact (Except.ok.inj hg).symm
    · exact (Except.ok.inj hg).symm
    · cases hp : parseParams fld.Tag with
      | error q => rw [hp] at hg; cases hg
      | ok m =>
        rw [hp] at hg
        simp only at hg
        cases hl : m.lookup envKw with
        | none => rw [hl] at hg; exact (Except.ok.inj hg).symm
        | some env =>
          rw [hl] at hg
          simp only [setField, if_neg hkind.1, if_neg hkind.2.1, if_neg hkind.2.2] at hg
          exact (Except.ok.inj hg).symm
  rw [Parse_pointer_struct]
  refine ⟨?_, ?_, ?_⟩
  · simp [Value.fieldVal, parseFields_frame e true fs i fld hfld hsame]
  · exact parseFields_no_error e true fs
  · exact parseFields_returns e true fs

theorem Parse_unsupported_kind_unchanged_witness :
    (Parse envX42 (.pointerTo (.struct
        [mkField "Ratio" "env:\"X\" fallback:\"5\"" (.other .Float64 3),
         mkField "Note" "" (.str [])]))).2.fieldVal 0 = some (.other .Float64 3)
    ∧ (Parse envX42 (.pointerTo (.struct
        [mkField "Ratio" "env:\"X\" fallback:\"5\"" (.other .Float64 3),
         mkField "Note" "" (.str [])]))).1 = .returned none := by
  have h := Parse_unsupported_kind_unchanged envX42
    [mkField "Ratio" "env:\"X\" fallback:\"5\"" (.other .Float64 3),
     mkField "Note" "" (.str [])] 0
    (mkField "Ratio" "env:\"X\" fallback:\"5\"" (.other .Float64 3)) rfl (by decide)
  exact ⟨h.1, by decide⟩

/-- C12: on a struct whose only field is a `float64` tagged `env:"X"  fallback:"5"` (two
spaces), and on a struct with a `float64` field tagged `env:"X"` followed by an int field
tagged `env:"X" ` (trailing space), `Parse` panics with a slice-bounds error instead of
returning nil; the `float64` field keeps its value. -/
theorem Parse_unsupported_kind_panics :
    Parse envX42 (.pointerTo (.struct
        [mkField "Ratio" "env:\"X\"  fallback:\"5\"" (.other .Float64 3)]))
      = (.panicked (.sliceBounds 1 0), .pointerTo (.struct
        [mkField "Ratio" "env:\"X\"  fallback:\"5\"" (.other .Float64 3)]))
    ∧ Parse envX42 (.pointerTo (.struct
        [mkField "Ratio" "env:\"X\"" (.other .Float64 3),
         mkField "Port" "env:\"X\" " (.int 0)]))
      = (.panicked (.sliceBounds 1 0), .pointerTo (.struct
        [mkField "Ratio" "env:\"X\"" (.other .Float64 3),
         mkField "Port" "env:\"X\" " (.int 0)])) := by
  decide

/-- Frame property of the settability test: a field that is not exported (so `CanSet` is
false) is skipped: it has after `Parse` the value it had before, whatever its tag is; the loop
goes on with the fields after it, so that the call ends as the loop over those fields ends;
and the call never returns an error value. -/
theorem Parse_unsettable_field_skipped (e : Env) (pre post : List Field) (fld : Field)
    (hexp : fld.exported = false) :
    (Parse e (.pointerTo (.struct (pre ++ fld :: post)))).2.fieldVal pre.length = some fld.val
    ∧ (∀ err, (Parse e (.pointerTo (.struct (pre ++ fld :: post)))).1 ≠ .returned (some err))
    ∧ ((parseFields e true pre).1 = .returned none →
        Parse e (.pointerTo (.struct (pre ++ fld :: post)))
          = ((parseFields e true post).1, .pointerTo (.struct
              ((parseFields e true pre).2 ++ fld :: (parseFields e true post).2)))) := by
  have hskip : parseField e true fld = .ok fld := by
    unfold parseField
    simp [hexp]
  have hsame : ∀ g, parseField e true fld = .ok g → g = fld := by
    intro g hg
    rw [hskip] at hg
    exact (Except.ok.inj hg).symm
  have hget : (pre ++ fld :: post)[pre.length]? = some fld := by
    induction pre with
    | nil => simp
    | cons a pre ih => simpa using ih
  rw [Parse_pointer_struct]
  refine ⟨?_, ?_, ?_⟩
  · simp [Value.fieldVal, parseFields_frame e true _ _ fld hget hsame]
  · exact parseFields_no_error e true _
  · intro hpre
    rw [parseFields_append e true _ pre hpre, parseFields, hskip]

theorem Parse_unsettable_field_skipped_witness :
    (Parse envX42 (.pointerTo (.struct ([mkField "Name" "env:\"X\"" (.str [])] ++
        { Name := goStr "port", Tag := goStr "env:\"X\"", exported := false, val := .int 7 } ::
        [mkField "Port" "env:\"X\"" (.int 0)])))).2.fieldVal 1 = some (.int 7)
    ∧ (Parse envX42 (.pointerTo (.struct ([mkField "Name" "env:\"X\"" (.str [])] ++
        { Name := goStr "port", Tag := goStr "env:\"X\"", exported := false, val := .int 7 } ::
        [mkField "Port" "env:\"X\"" (.int 0)])))).2.fieldVal 2 = some (.int 42) := by
  have h := Parse_unsettable_field_skipped envX42 [mkField "Name" "env:\"X\"" (.str [])]
    [mkField "Port" "env:\"X\"" (.int 0)]
    { Name := goStr "port", Tag := goStr "env:\"X\"", exported := false, val := .int 7 } rfl
  refine ⟨h.1, ?_⟩
  rw [h.2.2 (by decide)]
  decide

/-- C13: on a struct with an unexported int field tagged `env:"X"` followed by an exported
int field tagged `env:"X" ` (trailing space), `Parse` panics with a slice-bounds error instead
of returning nil; the unexported field keeps its value. -/
theorem Parse_unsettable_then_panics :
    Parse envX42 (.pointerTo (.struct
        [{ Name := goStr "port", Tag := goStr "env:\"X\"", exported := false, val := .int 7 },
         mkField "Port" "env:\"X\" " (.int 0)]))
      = (.panicked (.sliceBounds 1 0), .pointerTo (.struct
        [{ Name := goStr "port", Tag := goStr "env:\"X\"", exported := false, val := .int 7 },
         mkField "Port" "env:\"X\" " (.int 0)])) := by
  decide

/-! ## The environment is read through the tags only -/

theorem setField_congr (e1 e2 : Env) (env fallback : GoString) (f : Field)
    (h : e1 env = e2 env) : setField e1 env fallback f = setField e2 env fallback f := by
  simp only [setField, envString, envBool, envInt, h]

theorem parseField_congr (e1 e2 : Env) (addr : Bool) (f : Field)
    (h : ∀ n, envNameOf f.Tag = some n → e1 n = e2 n) :
    parseField e1 addr f = parseField e2 addr f := by
  unfold parseField
  split_ifs with h1 h2
  · rfl
  · rfl
  · cases hp : parseParams f.Tag with
    | error q => rfl
    | ok m =>
      simp only
      cases hl : m.lookup envKw with
      | none => rfl
      | some raw =>
        simp only
        have hn : envNameOf f.Tag = some (stringsTrim 34 raw) := by
          simp [envNameOf, hp, hl]
        rw [setField_congr e1 e2 _ _ f (h _ hn)]

theorem parseFields_congr (e1 e2 : Env) (addr : Bool) : ∀ (fs : List Field),
    (∀ f ∈ fs, ∀ n, envNameOf f.Tag = some n → e1 n = e2 n) →
    parseFields e1 addr fs = parseFields e2 addr fs := by
  intro fs
  induction fs with
  | nil => intro _; rfl
  | cons f rest ih =>
    intro h
    rw [parseFields, parseFields, parseField_congr e1 e2 addr f (h f (by simp)),
      ih (fun g hg => h g (List.mem_cons_of_mem _ hg))]

/-- C18: two environments that agree, in presence and in value, on every name obtained by
stripping the quotes from the `env` entry of some field's tag give the same result of `Parse`
on a pointer to the struct: the same outcome and the same field values. -/
theorem Parse_env_locality (e1 e2 : Env) (fs : List Field)
    (h : ∀ f ∈ fs, ∀ n, envNameOf f.Tag = some n → e1 n = e2 n) :
    Parse e1 (.pointerTo (.struct fs)) = Parse e2 (.pointerTo (.struct fs)) := by
  rw [Parse_pointer_struct, Parse_pointer_struct, parseFields_congr e1 e2 true fs h]

theorem Parse_env_locality_witness :
    Parse envX42 (.pointerTo (.struct [mkField "Port" "env:\"X\" fallback:\"5\"" (.int 0)]))
      = Parse envX42Home
          (.pointerTo (.struct [mkField "Port" "env:\"X\" fallback:\"5\"" (.int 0)])) :=
  Parse_env_locality envX42 envX42Home [mkField "Port" "env:\"X\" fallback:\"5\"" (.int 0)]
    (by
      intro f hf n hn
      rw [List.mem_singleton] at hf
      subst hf
      have hX : envNameOf (mkField "Port" "env:\"X\" fallback:\"5\"" (.int 0)).Tag
          = some (goStr "X") := by decide
      rw [hX] at hn
      cases hn
      decide)

/-! ## Letter case of boolean texts -/

/-- C16, as stated, fails: `ParseBool` rejects `tRuE` and `FaLsE`, so with `X` bound to `tRuE`
`envBool` returns the fallback, `false` included. -/
theorem envBool_mixed_case :
    ParseBool (goStr "tRuE") = .error .ErrSyntax
    ∧ ParseBool (goStr "FaLsE") = .error .ErrSyntax
    ∧ envXMixedCase (goStr "X") = some (goStr "tRuE")
    ∧ envBool envXMixedCase (goStr "X") false = false :=
  ⟨rfl, rfl, rfl, rfl⟩

/-- C16, amended: for every name bound to one of the texts `true`, `TRUE`, `True`, `t`, `T`,
`1` (respectively `false`, `FALSE`, `False`, `f`, `F`, `0`), `envBool` returns true
(respectively false) for every fallback; for a name bound to any other text, other letter-case
variants included, it returns the fallback. -/
theorem envBool_spellings (e : Env) (key v : GoString) (fallback : Bool)
    (hbound : e key = some v) :
    (v ∈ [goStr "true", goStr "TRUE", goStr "True", goStr "t", goStr "T", goStr "1"] →
      envBool e key fallback = true)
    ∧ (v ∈ [goStr "false", goStr "FALSE", goStr "False", goStr "f", goStr "F", goStr "0"] →
      envBool e key fallback = false)
    ∧ (v ∉ [goStr "true", goStr "TRUE", goStr "True", goStr "t", goStr "T", goStr "1",
            goStr "false", goStr "FALSE", goStr "False", goStr "f", goStr "F", goStr "0"] →
      envBool e key fallback = fallback) := by
  refine ⟨?_, ?_, ?_⟩
  · intro hv
    simp only [List.mem_cons, List.mem_singleton, List.not_mem_nil, or_false] at hv
    rcases hv with h | h | h | h | h | h <;> subst h <;> simp only [envBool, hbound] <;> rfl
  · intro hv
    simp only [List.mem_cons, List.mem_singleton, List.not_mem_nil, or_false] at hv
    rcases hv with h | h | h | h | h | h <;> subst h <;> simp only [envBool, hbound] <;> rfl
  · intro hv
    simp only [List.mem_cons, List.mem_singleton, List.not_mem_nil, or_false, not_or] at hv
    have hp : ParseBool v = .error .ErrSyntax := by
      unfold ParseBool
      rw [if_neg (by tauto), if_neg (by tauto)]
    simp only [envBool, hbound, hp]

theorem envBool_spellings_witness :
    envBool envXMixedCase (goStr "X") true = true
    ∧ envBool envXMixedCase (goStr "X") false = false :=
  ⟨(envBool_spellings envXMixedCase (goStr "X") (goStr "tRuE") true rfl).2.2 (by decide),
   (envBool_spellings envXMixedCase (goStr "X") (goStr "tRuE") false rfl).2.2 (by decide)⟩

/-! ## Tokens without a colon, and repeated keywords -/

theorem rangeFrom_idx_lt (s : GoString) : ∀ (skip off : Nat),
    ∀ p ∈ rangeFrom skip off s, p.1 < off + s.length := by
  induction s with
  | nil => intro skip off p hp; simp [rangeFrom] at hp
  | cons b rest ih =>
    intro skip off p hp
    cases skip with
    | zero =>
      rw [rangeFrom] at hp
      rcases List.mem_cons.mp hp with h | h
      · subst h; simp
      · have := ih _ _ p h
        simp only [List.length_cons]
        omega
    | succ k =>
      rw [rangeFrom] at hp
      have := ih _ _ p hp
      simp only [List.length_cons]
      omega

theorem getTagLoop_idx_lt (bound : Nat) : ∀ (l : List (Nat × Nat)) (idx : Nat) (tag : List Nat),
    idx < bound → (∀ p ∈ l, p.1 < bound) → (getTagLoop l idx tag).2 < bound := by
  intro l
  induction l with
  | nil => intro idx tag h _; simpa [getTagLoop] using h
  | cons p l ih =>
    intro idx tag _ hl
    obtain ⟨i, c⟩ := p
    have hi : i < bound := hl (i, c) (by simp)
    rw [getTagLoop]
    split_ifs
    · exact hi
    · exact ih i _ hi (fun q hq => hl q (List.mem_cons_of_mem _ hq))

/-- On a non-empty token the index returned by `getTag` is within the token, so the slice
`param[idx:]` does not panic. -/
theorem getTag_idx_le (t : GoString) (hne : t ≠ []) : (getTag t).2 ≤ t.length := by
  cases t with
  | nil => exact absurd rfl hne
  | cons b rest =>
    have h := getTagLoop_idx_lt (b :: rest).length (rangeString (b :: rest)) 0 []
      (by simp) (fun p hp => by
        have := rangeFrom_idx_lt (b :: rest) 0 0 p hp
        omega)
    simp only [getTag]
    omega

theorem parseParamsLoop_nonempty (ts : List GoString) : ∀ (m : GoMap),
    (∀ t ∈ ts, t ≠ []) →
    parseParamsLoop ts m = .ok ((ts.map tokenEntry).reverse ++ m) := by
  induction ts with
  | nil => intro m _; simp [parseParamsLoop]
  | cons t ts ih =>
    intro m h
    have ht := getTag_idx_le t (h t (by simp))
    rw [parseParamsLoop, if_pos ht, ih _ (fun u hu => h u (List.mem_cons_of_mem _ hu))]
    simp [tokenEntry]

theorem lookup_map_tokenEntry (k : GoString) : ∀ (l : List GoString),
    List.lookup k (l.map tokenEntry)
      = (l.find? (fun t => (tokenEntry t).1 == k)).map (fun t => (tokenEntry t).2) := by
  intro l
  induction l with
  | nil => rfl
  | cons t l ih =>
    rw [List.map_cons, List.lookup_cons, List.find?_cons]
    by_cases hk : k = (tokenEntry t).1
    · have h1 : (k == (tokenEntry t).1) = true := by simpa using hk
      have h2 : ((tokenEntry t).1 == k) = true := by simpa using hk.symm
      simp only [h1, h2, Option.map_some']
    · have h1 : (k == (tokenEntry t).1) = false := by simpa using hk
      have h2 : ((tokenEntry t).1 == k) = false := by simpa using (Ne.symm hk)
      simp only [h1, h2]
      exact ih

/-- C15: for a tag of non-empty tokens separated by single spaces, `parseParams` returns a
mapping that binds every keyword to the raw value of the last token carrying it (the first
one found when the tokens are read from the end), and binds nothing else. -/
theorem parseParams_last_wins (ts : List GoString) (hne : ts ≠ [])
    (h : ∀ t ∈ ts, t ≠ [] ∧ 32 ∉ t) :
    ∃ m, parseParams (joinSpace ts) = .ok m
      ∧ ∀ k, m.lookup k
          = (ts.reverse.find? (fun t => (tokenEntry t).1 == k)).map (fun t => (tokenEntry t).2) := by
  refine ⟨(ts.map tokenEntry).reverse, ?_, ?_⟩
  · unfold parseParams
    rw [stringsSplit_joinSpace ts hne (fun t ht => (h t ht).2),
      parseParamsLoop_nonempty ts [] (fun t ht => (h t ht).1), List.append_nil]
  · intro k
    rw [← List.map_reverse, lookup_map_tokenEntry]

theorem parseParams_last_wins_witness :
    (∃ m, parseParams (joinSpace [goStr "env:\"A\"", goStr "env:\"B\""]) = .ok m
      ∧ ∀ k, m.lookup k
          = ([goStr "env:\"A\"", goStr "env:\"B\""].reverse.find?
              (fun t => (tokenEntry t).1 == k)).map (fun t => (tokenEntry t).2))
    ∧ joinSpace [goStr "env:\"A\"", goStr "env:\"B\""] = goStr "env:\"A\" env:\"B\""
    ∧ envNameOf (goStr "env:\"A\" env:\"B\"") = some (goStr "B") :=
  ⟨parseParams_last_wins [goStr "env:\"A\"", goStr "env:\"B\""] (by decide) (by decide),
    by decide, by decide⟩

/-- C14: on the token `aé`, which has no colon and ends with a two-byte character, `getTag`
returns index 2 (one past the start of the last character, not the length 3), so
`parseParams` stores the keyword `aé` with the one-byte value `\xa9`, not the empty string;
a token ending with a one-byte character, such as `ab`, gets the empty value. -/
theorem parseParams_colonless_multibyte :
    goStr "aé" = [97, 195, 169]
    ∧ getTag (goStr "aé") = (goStr "aé", 2)
    ∧ parseParams (goStr "aé") = .ok [(goStr "aé", [169])]
    ∧ parseParams (goStr "ab") = .ok [(goStr "ab", [])] :=
  ⟨by decide, by decide, rfl, rfl⟩

/-! ## A fallback with a space -/

theorem decodeRune_append_ascii (b c : Nat) (k v : GoString) (hc : c < 0x80) :
    decodeRune (b :: k ++ c :: v) = decodeRune (b :: k) := by
  have hlo := acceptLo_spec b
  rcases k with _ | ⟨b1, _ | ⟨b2, _ | ⟨b3, k⟩⟩⟩ <;>
    simp only [decodeRune, isCont_iff, List.cons_append, List.nil_append] <;>
    generalize acceptLo b = lo at * <;>
    repeat' split
  all_goals first | rfl | (exfalso; omega)

theorem encodeRunes_append (l1 l2 : List Nat) :
    encodeRunes (l1 ++ l2) = encodeRunes l1 ++ encodeRunes l2 := by
  induction l1 with
  | nil => rfl
  | cons r l1 ih => rw [List.cons_append, encodeRunes, encodeRunes, ih, List.append_assoc]

theorem getTagLoop_ascii_end (c : Nat) (hc : c < 0x80) (hc2 : c ≠ 58) :
    ∀ (n : Nat) (k : GoString) (off idx : Nat) (tag : List Nat), k.length ≤ n → 58 ∉ k →
    getTagLoop (rangeFrom 0 off (k ++ [c])) idx tag
      = (tag ++ (rangeFrom 0 off k).map Prod.snd ++ [c], off + k.length) := by
  have hone : decodeRune [c] = (c, 1) := by
    simp only [decodeRune, if_pos hc]
  intro n
  induction n with
  | zero =>
    intro k off idx tag hlen _
    have hk : k = [] := List.length_eq_zero.mp (Nat.le_zero.mp hlen)
    subst hk
    simp [rangeFrom, hone, getTagLoop, hc2]
  | succ n ih =>
    intro k off idx tag hlen hk
    cases k with
    | nil => simp [rangeFrom, hone, getTagLoop, hc2]
    | cons b k =>
      have hb : b ≠ 58 := fun h => hk (by simp [h])
      have hk2 : 58 ∉ k := fun h => hk (by simp [h])
      have hw := decodeRune_width b k
      have hne := decodeRune_ne_colon b k hb
      have hctx := decodeRune_append_ascii b c k [] hc
      rw [List.cons_append] at hctx
      have hdrop : List.drop ((decodeRune (b :: k)).2 - 1) (k ++ [c])
          = List.drop ((decodeRune (b :: k)).2 - 1) k ++ [c] := by
        apply List.drop_append_of_le_length
        simp only [List.length_cons] at hw
        omega
      have hk3 : 58 ∉ List.drop ((decodeRune (b :: k)).2 - 1) k :=
        fun h => hk2 (List.mem_of_mem_drop h)
      have hlen3 : (List.drop ((decodeRune (b :: k)).2 - 1) k).length ≤ n := by
        simp only [List.length_cons] at hlen hw
        simp only [List.length_drop]
        omega
      rw [List.cons_append, rangeFrom, hctx, getTagLoop, if_neg hne, rangeFrom, List.map_cons]
      rw [rangeFrom_skip (k ++ [c]), rangeFrom_skip k, hdrop, ih _ _ _ _ hlen3 hk3]
      simp only [List.length_cons] at hw
      simp only [List.length_drop, List.length_cons, List.append_assoc, List.singleton_append,
        List.cons_append, List.nil_append, Prod.mk.injEq, true_and]
      omega

/-- A token without a colon that ends with a one-byte character other than the colon: the
keyword is the whole token (as valid UTF-8) and the value is empty. -/
theorem tokenEntry_ascii_end (k : GoString) (c : Nat) (hk : 58 ∉ k) (hc : c < 0x80)
    (hc2 : c ≠ 58) : tokenEntry (k ++ [c]) = (toValidUTF8 k ++ [c], []) := by
  have h := getTagLoop_ascii_end c hc hc2 k.length k 0 0 [] (le_refl _) hk
  have he : encodeRunes [c] = [c] := by simp [encodeRunes, encodeRune, hc]
  simp [tokenEntry, getTag, rangeString, toValidUTF8, h, encodeRunes_append, he]

theorem tokenEntry_token (k v : GoString) (hk : 58 ∉ k) :
    tokenEntry (token (k, v)) = (toValidUTF8 k, v) := by
  have hd : List.drop (k.length + 1) (k ++ 58 :: v) = v := by
    rw [List.drop_append_eq_append_drop]
    simp
  simp [tokenEntry, token, getTag_colon k v hk, hd]

theorem stringsTrim_open_quote (P : GoString) (h : 34 ∉ P) : stringsTrim 34 (34 :: P) = P := by
  unfold stringsTrim
  rw [trimLeft, if_pos rfl, trimLeft_of_head 34 P (head?_ne_of_not_mem 34 P h),
    trimLeft_of_head 34 P.reverse, List.reverse_reverse]
  rw [List.head?_reverse]
  exact getLast?_ne_of_not_mem 34 P h

theorem envFallbackTag_space (N P Q : GoString) :
    envFallbackTag N (P ++ 32 :: Q)
      = joinSpace [token (envKw, 34 :: N ++ [34]), token (fallbackKw, 34 :: P), Q ++ [34]] := by
  have h1 : goStr "env:\"" = [101, 110, 118, 58, 34] := by decide
  have h2 : goStr "\"" = [34] := by decide
  have h3 : goStr "\" fallback:\"" = [34, 32, 102, 97, 108, 108, 98, 97, 99, 107, 58, 34] := by
    decide
  simp [envFallbackTag, joinSpace, token, h1, h2, h3, envKw_eq, fallbackKw_eq]

/-- The tokenizer on `env:"N" fallback:"P Q"`: three tokens, the last of which is `Q"`. -/
theorem parseParams_fallback_space (N P Q : GoString) (hN : 32 ∉ N) (hP : 32 ∉ P)
    (hQ : 32 ∉ Q ∧ 58 ∉ Q) :
    parseParams (envFallbackTag N (P ++ 32 :: Q))
      = .ok [(toValidUTF8 Q ++ [34], []), (fallbackKw, 34 :: P), (envKw, 34 :: N ++ [34])] := by
  have hv : toValidUTF8 envKw = envKw := by decide
  have hv2 : toValidUTF8 fallbackKw = fallbackKw := by decide
  have hk1 : 58 ∉ envKw := by decide
  have hk2 : 58 ∉ fallbackKw := by decide
  rw [envFallbackTag_space]
  unfold parseParams
  rw [stringsSplit_joinSpace _ (by simp) (by
      intro t ht
      simp only [List.mem_cons, List.mem_singleton, List.not_mem_nil, or_false] at ht
      rcases ht with rfl | rfl | rfl
      · simp [token, envKw_eq, hN]
      · simp [token, fallbackKw_eq, hP]
      · simp [hQ.1]),
    parseParamsLoop_nonempty _ [] (by
      intro t ht
      simp only [List.mem_cons, List.mem_singleton, List.not_mem_nil, or_false] at ht
      rcases ht with rfl | rfl | rfl <;> simp [token])]
  simp only [List.map_cons, List.map_nil, tokenEntry_token _ _ hk1, tokenEntry_token _ _ hk2,
    tokenEntry_ascii_end Q 34 hQ.2 (by norm_num) (by norm_num), hv, hv2]
  rfl

/-- C17, as stated, fails when the name itself contains a space: the tag
`env:"A B" fallback:"P Q"` is resolved from the variable `A`, so with `A B` unbound and `A`
bound to `zzz` the field becomes `zzz`, not `P`. -/
theorem Parse_name_with_space :
    (mkField "Name" "env:\"A B\" fallback:\"P Q\"" (.str [])).Tag
        = envFallbackTag (goStr "A B") (goStr "P" ++ 32 :: goStr "Q")
    ∧ envAzzz (goStr "A B") = none
    ∧ Parse envAzzz (.pointerTo (.struct
        [mkField "Name" "env:\"A B\" fallback:\"P Q\"" (.str [])]))
      = (.returned none, .pointerTo (.struct
        [mkField "Name" "env:\"A B\" fallback:\"P Q\"" (.str (goStr "zzz"))])) := by
  decide

/-- C17, amended: for a settable string field tagged `env:"N" fallback:"P Q"`, where `N` has
no space and no double quote, `P` and `Q` have no space, colon or double quote, and `N` is
unbound, `Parse` sets the field to `P`, the fallback text before the first space. -/
theorem Parse_fallback_cut_at_space (e : Env) (fs : List Field) (i : Nat) (fld : Field)
    (N P Q : GoString)
    (hfld : fs[i]? = some fld) (hexp : fld.exported = true)
    (hkind : fld.val.Kind = Kind.String)
    (htag : fld.Tag = envFallbackTag N (P ++ 32 :: Q))
    (hN : 32 ∉ N ∧ 34 ∉ N) (hP : 32 ∉ P ∧ 58 ∉ P ∧ 34 ∉ P) (hQ : 32 ∉ Q ∧ 58 ∉ Q ∧ 34 ∉ Q)
    (hunbound : e N = none)
    (hret : (Parse e (.pointerTo (.struct fs))).1 = .returned none) :
    (Parse e (.pointerTo (.struct fs))).2.fieldVal i = some (.str P) := by
  have htok := parseParams_fallback_space N P Q hN.1 hP.1 ⟨hQ.1, hQ.2.1⟩
  rw [← htag] at htok
  have hkey : (envKw == toValidUTF8 Q ++ [34]) = false := by
    rw [beq_eq_false_iff_ne]
    intro h
    have hmem : 34 ∈ toValidUTF8 Q ++ [34] := by simp
    rw [← h] at hmem
    revert hmem
    decide
  have hkey2 : (fallbackKw == toValidUTF8 Q ++ [34]) = false := by
    rw [beq_eq_false_iff_ne]
    intro h
    have hmem : 34 ∈ toValidUTF8 Q ++ [34] := by simp
    rw [← h] at hmem
    revert hmem
    decide
  have hkw : (envKw == fallbackKw) = false := by decide
  have henv : List.lookup envKw
      [(toValidUTF8 Q ++ [34], []), (fallbackKw, 34 :: P), (envKw, 34 :: N ++ [34])]
      = some (34 :: N ++ [34]) := by
    simp [List.lookup, hkey, hkw]
  have hfb : GoMap.index
      [(toValidUTF8 Q ++ [34], []), (fallbackKw, 34 :: P), (envKw, 34 :: N ++ [34])] fallbackKw
      = 34 :: P := by
    simp [GoMap.index, List.lookup, hkey2]
  have hmain := Parse_field_of_env e fs i fld _ _ hfld hexp htok henv hret
  rw [hmain, hfb, stringsTrim_quoted_of_not_mem N hN.2, stringsTrim_open_quote P hP.2.2]
  simp [setField, hkind, envString, hunbound]

theorem Parse_fallback_cut_at_space_witness :
    (Parse envX42 (.pointerTo (.struct
      [mkField "Name" "env:\"NAME\" fallback:\"John Doe\"" (.str [])]))).2.fieldVal 0
      = some (.str (goStr "John")) :=
  Parse_fallback_cut_at_space envX42
    [mkField "Name" "env:\"NAME\" fallback:\"John Doe\"" (.str [])] 0
    (mkField "Name" "env:\"NAME\" fallback:\"John Doe\"" (.str [])) (goStr "NAME")
    (goStr "John") (goStr "Doe") rfl rfl rfl (by decide) (by decide) (by decide) (by decide)
    (by decide) (by decide)

end Envs
